import Mathlib

/-!
Shallow embedding of the `canspec` CAN schema generator
(`src/canspec.py`, `src/_convert.py`, `src/_xml.py`).

Python exceptions are modelled with `Except PyError`; unbounded recursion in
the source is modelled with an explicit fuel parameter, where exhausting any
amount of fuel (`PyError.outOfFuel` for every fuel value) corresponds to a
Python run that recurses without bound until the interpreter kills it
(`RecursionError`).  Python `dict`s (insertion ordered) are modelled as
association lists with in-place update.  YAML numbers are modelled as exact
rationals; the generated C++ operates on `uint64_t`, modelled as `Nat` with
explicit reduction `% 2 ^ 64` where the source can overflow.
-/

/-- The kinds of Python exceptions the source can raise.
`semanticException` is the source's own `CANSemanticException`; the others
are interpreter errors (`KeyError`, `AttributeError`, `ValueError` from
`math.log2(0)`, `ZeroDivisionError`, and `outOfFuel` standing for
`RecursionError` after unbounded recursion). `typeError` marks applying a
generated C++ routine to a value of the wrong shape, which the C++ type
system makes unrepresentable. -/
inductive PyError where
  | keyError : String → PyError
  | attributeError : PyError
  | semanticException : String → PyError
  | valueError : PyError
  | zeroDivisionError : PyError
  | typeError : PyError
  | outOfFuel : PyError
deriving DecidableEq, Repr

/-- `CANSignal` from `_convert.py`: a single, non-label signal.
`min`, `max` are the two entries of `params['range']`; `size` defaults
to 8; `unit` defaults to the empty string. -/
structure CANSignal where
  unit : String
  min : Rat
  max : Rat
  size : Nat
deriving DecidableEq, Repr

/-- `CANSignal.__init__`: load from a YAML params mapping.  A missing
`range` key raises `KeyError` in the source. -/
def CANSignal.init (unitKey : Option String) (rangeKey : Option (Rat × Rat))
    (sizeKey : Option Nat) : Except PyError CANSignal :=
  match rangeKey with
  | none => .error (.keyError "range")
  | some (mn, mx) => .ok ⟨unitKey.getD "", mn, mx, sizeKey.getD 8⟩

/-- `CANSignal.slope`: `(max - min) / (2 ** size - 1)`.
For `size = 0` the denominator is `0` and Python raises
`ZeroDivisionError`. -/
def CANSignal.slope (s : CANSignal) : Except PyError Rat :=
  if s.size = 0 then .error .zeroDivisionError
  else .ok ((s.max - s.min) / (2 ^ s.size - 1))

/-- A struct member's type: either an inline signal mapping (loaded to a
`CANSignal`) or a reference-by-name string (which includes `"bool"`). -/
inductive Member where
  | sig : CANSignal → Member
  | ref : String → Member
deriving DecidableEq, Repr

/-- The attributes a successfully shaped `CANStruct` carries: either
`is_enum = False` with `struct_members`, or `is_enum = True` with
`enum_members`. -/
inductive StructBody where
  | struct : List (String × Member) → StructBody
  | enum : List String → StructBody
deriving DecidableEq, Repr

/-- `CANStruct` from `_convert.py`.  `body = none` models the object
produced when the raw YAML node is neither a sequence nor a mapping: the
constructor's `if`/`elif` has no `else`, so neither `is_enum` nor any
member list is ever set, and reading them later raises
`AttributeError`. -/
structure CANStruct where
  name : String
  body : Option StructBody
deriving DecidableEq, Repr

/-- A raw YAML type node, as handed to `CANStruct.__init__`: a sequence of
single-key `\x7bmember_name: member_type\x7d` mappings, a mapping
(association list of key/value pairs whose values are label-string
sequences), or any other (scalar) shape. -/
inductive RawMember where
  | refName : String → RawMember
  | inline : Option String → Option (Rat × Rat) → Option Nat → RawMember
deriving DecidableEq, Repr

/-- Raw YAML node shapes for a type definition. -/
inductive RawNode where
  | list : List (String × RawMember) → RawNode
  | dict : List (String × List String) → RawNode
  | scalar : RawNode
deriving DecidableEq, Repr

/-- Left-to-right effectful map over a list, as a Python loop/comprehension
raising on the first failing element. -/
def mapME {α β : Type} (f : α → Except PyError β) : List α → Except PyError (List β)
  | [] => .ok []
  | a :: rest =>
    match f a with
    | .error e => .error e
    | .ok b => (mapME f rest).map (fun bs => b :: bs)

/-- `CANStruct._member_type_to_signal` combined with the member loading in
`CANStruct.__init__`. -/
def loadMember (p : String × RawMember) : Except PyError (String × Member) :=
  match p.2 with
  | .refName t => .ok (p.1, .ref t)
  | .inline u r s => (CANSignal.init u r s).map (fun g => (p.1, .sig g))

/-- `CANStruct.__init__`: a sequence is a struct, a mapping whose only key
is `enum` is an enum, any other mapping raises `CANSemanticException`, and
any other shape silently produces an object with no attributes set. -/
def CANStruct.init (name : String) : RawNode → Except PyError CANStruct
  | .list ms => (mapME loadMember ms).map (fun members => ⟨name, some (.struct members)⟩)
  | .dict kvs =>
    match kvs with
    | [(k, labels)] =>
      if k = "enum" then .ok ⟨name, some (.enum labels)⟩
      else .error (.semanticException "Invalid struct def")
    | _ => .error (.semanticException "Invalid struct def")
  | .scalar => .ok ⟨name, none⟩

/-- `CANStruct.dependencies`: names of referenced structures, with the
built-in `bool` filtered out; enums have none.  Reading `self.is_enum` on
an attribute-less object raises `AttributeError`. -/
def CANStruct.dependencies (s : CANStruct) : Except PyError (List String) :=
  match s.body with
  | none => .error .attributeError
  | some (.enum _) => .ok []
  | some (.struct ms) => .ok (ms.filterMap (fun p =>
      match p.2 with
      | .sig _ => none
      | .ref t => if t = "bool" then none else some t))

/-- The member loop of `CANStruct.size`, parameterized by the recursive
call on a referenced definition. -/
def sizeMembersStep (step : CANStruct → Except PyError Nat)
    (struct_defs : List (String × CANStruct)) :
    List (String × Member) → Except PyError Nat
  | [] => .ok 0
  | (_, .sig g) :: rest =>
    (sizeMembersStep step struct_defs rest).map (fun t => g.size + t)
  | (_, .ref t) :: rest =>
    match List.lookup t struct_defs with
    | none => .error (.keyError t)
    | some d =>
      match step d with
      | .error e => .error e
      | .ok w => (sizeMembersStep step struct_defs rest).map (fun r => w + r)

/-- `CANStruct.size`: bit size of the struct.  An enum is
`math.ceil(math.log2(len(enum_members)))` (`ValueError` on an empty label
list); a struct sums each member's size, looking every reference — the
`bool` member type included — up in `struct_defs` (`KeyError` when
absent). -/
def CANStruct.size (struct_defs : List (String × CANStruct)) :
    Nat → CANStruct → Except PyError Nat
  | 0, _ => .error .outOfFuel
  | fuel+1, s =>
    match s.body with
    | none => .error .attributeError
    | some (.enum labels) =>
      if labels.length = 0 then .error .valueError
      else .ok (Nat.clog 2 labels.length)
    | some (.struct ms) =>
      sizeMembersStep (CANStruct.size struct_defs fuel) struct_defs ms

/-- Sequential exploration of a list of nodes, threading `result`,
parameterized by the recursive `explore` call; this is both the
`for edge in edges(node)` loop and the top-level `for node in nodes` loop
of `_topological_sort`. -/
def exploreListStep (step : String → List String → Except PyError (List String)) :
    List String → List String → Except PyError (List String)
  | [], result => .ok result
  | e :: es, result =>
    match step e result with
    | .error err => .error err
    | .ok r => exploreListStep step es r

/-- The inner `explore` of `_topological_sort`: skip a node already in
`result`, otherwise explore its edges first and then append it.  There is
no in-progress marking, so the only cycle behavior is exhausting every
recursion budget. -/
def explore (edges : String → Except PyError (List String)) :
    Nat → String → List String → Except PyError (List String)
  | 0, _, _ => .error .outOfFuel
  | fuel+1, node, result =>
    if node ∈ result then .ok result
    else
      match edges node with
      | .error e => .error e
      | .ok deps =>
        match exploreListStep (explore edges fuel) deps result with
        | .error e => .error e
        | .ok r => .ok (r ++ [node])

/-- `_topological_sort nodes edges`: post-order depth-first append. -/
def topological_sort (nodes : List String)
    (edges : String → Except PyError (List String)) (fuel : Nat) :
    Except PyError (List String) :=
  exploreListStep (explore edges fuel) nodes []

/-- Insertion into a Python `dict` modelled as an association list:
an existing key keeps its position and gets the new value, a new key is
appended at the end. -/
def dictInsert (k : String) (v : α) : List (String × α) → List (String × α)
  | [] => [(k, v)]
  | (k', v') :: rest =>
    if k' = k then (k, v) :: rest else (k', v') :: dictInsert k v rest

/-- The input database: top-level `name`, `structs` and `messages`
sections, each section an insertion-ordered mapping. -/
structure Database where
  name : String
  structs : List (String × RawNode)
  messages : List (String × RawNode)
deriving DecidableEq, Repr

/-- The loading loop underlying `buildStructDefs`. -/
def buildStructDefsFrom (acc : List (String × CANStruct)) :
    List (String × RawNode) → Except PyError (List (String × CANStruct))
  | [] => .ok acc
  | (nm, raw) :: rest =>
    match CANStruct.init nm raw with
    | .error e => .error e
    | .ok s => buildStructDefsFrom (dictInsert nm s acc) rest

/-- The `struct_defs` dictionary built at the top of `database_to_kcd` and
`database_to_cpp`: every entry of `structs`, then every entry of
`messages`, loaded through `CANStruct.__init__`. -/
def buildStructDefs (db : Database) : Except PyError (List (String × CANStruct)) :=
  buildStructDefsFrom [] (db.structs ++ db.messages)

/-- The dependency-edges function `database_to_cpp` passes to
`_topological_sort`: `struct_defs[name].dependencies()`. -/
def edgesOf (struct_defs : List (String × CANStruct)) (n : String) :
    Except PyError (List String) :=
  match List.lookup n struct_defs with
  | none => .error (.keyError n)
  | some d => d.dependencies

/-- The sort order computed in `database_to_cpp`:
`_topological_sort(struct_defs.keys(), lambda name: struct_defs[name].dependencies())`. -/
def struct_order (struct_defs : List (String × CANStruct)) (fuel : Nat) :
    Except PyError (List String) :=
  topological_sort (struct_defs.map Prod.fst) (edgesOf struct_defs) fuel

/-- An XML node from `_xml.py`: name, properties, children, text content. -/
inductive XML where
  | mk : String → List (String × String) → List XML → String → XML

/-- The node name. -/
def XML.name : XML → String
  | .mk n _ _ _ => n

/-- The property list. -/
def XML.properties : XML → List (String × String)
  | .mk _ ps _ _ => ps

/-- The child list. -/
def XML.children : XML → List XML
  | .mk _ _ cs _ => cs

/-- The text content. -/
def XML.content : XML → String
  | .mk _ _ _ ct => ct

/-- `" " * n`. -/
def spacesStr (n : Nat) : String := ⟨List.replicate n ' '⟩

/-- The property rendering shared by `XML.__str__` and
`XML.human_readable`. -/
def XML.propsText (ps : List (String × String)) : String :=
  ps.foldl (fun acc p => acc ++ " " ++ p.1 ++ "=\"" ++ p.2 ++ "\"") ""

/-- `XML.human_readable`: indented text rendering.  The recursion over the
(finite) child tree carries fuel only so the definition reduces
definitionally; every call in this development passes fuel beyond the tree
depth, where the result agrees with the source. -/
def XML.human_readable : Nat → XML → Nat → String
  | 0, _, _ => ""
  | fuel+1, .mk n ps cs ct, indent =>
    spacesStr indent ++ "<" ++ n ++ XML.propsText ps ++ ">\n" ++
    String.join (cs.map (fun c => XML.human_readable fuel c (indent + 2))) ++
    (if ct ≠ "" then spacesStr (indent + 2) ++ ct ++ "\n" else "") ++
    spacesStr indent ++ "</" ++ n ++ ">\n"

/-- Python `str` on a YAML number, modelled on exact rationals. -/
def ratStr (q : Rat) : String := toString q

/-- `KCDMessageSerializer`: accumulated nodes and the running bit
offset. -/
structure KCDMessageSerializer where
  bit_pos : Nat
  contents : List XML

/-- `KCDMessageSerializer.write`: append a node and advance `bit_pos` by
`size`. -/
def KCDMessageSerializer.write (s : KCDMessageSerializer) (xml : XML) (size : Nat) :
    KCDMessageSerializer :=
  ⟨s.bit_pos + size, s.contents ++ [xml]⟩

/-- `CANSignal.serialize_kcd`: one `Signal` leaf with a `Value` child
carrying the linear scaling.  Computing `slope()` can raise. -/
def CANSignal.serialize_kcd (g : CANSignal) (serializer : KCDMessageSerializer)
    (name : String) : Except PyError KCDMessageSerializer :=
  match g.slope with
  | .error e => .error e
  | .ok sl =>
    .ok (serializer.write
      (XML.mk "Signal"
        [("name", name), ("offset", toString serializer.bit_pos),
         ("length", toString g.size)]
        [XML.mk "Value"
          [("type", "unsigned"), ("unit", g.unit), ("slope", ratStr sl),
           ("intercept", ratStr g.min), ("min", ratStr g.min),
           ("max", ratStr g.max)] [] ""] "")
      g.size)

/-- `str.rstrip('_')`. -/
def rstripUnderscore (s : String) : String :=
  ⟨(s.data.reverse.dropWhile (fun c => c = '_')).reverse⟩

/-- The member loop of `CANStruct.serialize_members_kcd`, parameterized by
the recursive call on a referenced definition. -/
def serializeKCDMembersStep
    (step : CANStruct → KCDMessageSerializer → String →
      Except PyError KCDMessageSerializer)
    (struct_defs : List (String × CANStruct)) :
    List (String × Member) → KCDMessageSerializer → String →
    Except PyError KCDMessageSerializer
  | [], serializer, _ => .ok serializer
  | (nm, .sig g) :: rest, serializer, name_base =>
    match g.serialize_kcd serializer (name_base ++ nm) with
    | .error e => .error e
    | .ok ser' => serializeKCDMembersStep step struct_defs rest ser' name_base
  | (nm, .ref t) :: rest, serializer, name_base =>
    if t = "bool" then
      serializeKCDMembersStep step struct_defs rest
        (serializer.write
          (XML.mk "Signal"
            [("name", name_base ++ nm), ("offset", toString serializer.bit_pos),
             ("length", "1")]
            [XML.mk "Value" [("type", "unsigned")] [] ""] "")
          1)
        name_base
    else
      match List.lookup t struct_defs with
      | none => .error (.keyError t)
      | some d =>
        match step d serializer (name_base ++ nm ++ "_") with
        | .error e => .error e
        | .ok ser' => serializeKCDMembersStep step struct_defs rest ser' name_base

/-- `CANStruct.serialize_members_kcd`: flatten the member tree into
`Signal` leaves.  An enum becomes one leaf of length `self.size(\x7b\x7d)`
with a `LabelSet`; a signal member defers to
`CANSignal.serialize_kcd`; a `bool` member is an inline leaf of length 1;
any other reference recurses with the name prefix extended.  (The enum
branch of `size` never recurses, so fuel 1 is enough for its call.) -/
def CANStruct.serialize_members_kcd (struct_defs : List (String × CANStruct)) :
    Nat → CANStruct → KCDMessageSerializer → String →
    Except PyError KCDMessageSerializer
  | 0, _, _, _ => .error .outOfFuel
  | fuel+1, s, serializer, name_base =>
    match s.body with
    | none => .error .attributeError
    | some (.enum labels) =>
      match CANStruct.size [] 1 s with
      | .error e => .error e
      | .ok w =>
        .ok (serializer.write
          (XML.mk "Signal"
            [("name", rstripUnderscore name_base),
             ("offset", toString serializer.bit_pos), ("length", toString w)]
            [XML.mk "LabelSet" []
              (labels.enum.map (fun p =>
                XML.mk "Label" [("name", p.2), ("value", toString p.1)] [] ""))
              ""] "")
          w)
    | some (.struct ms) =>
      serializeKCDMembersStep (CANStruct.serialize_members_kcd struct_defs fuel)
        struct_defs ms serializer name_base

/-- `CANStruct.serialize_message_kcd`: run the member serializer on a fresh
serializer and wrap the result in a `Message` node. -/
def CANStruct.serialize_message_kcd (struct_defs : List (String × CANStruct))
    (fuel : Nat) (s : CANStruct) (id : Nat) : Except PyError XML :=
  match CANStruct.serialize_members_kcd struct_defs fuel s ⟨0, []⟩ "" with
  | .error e => .error e
  | .ok serializer =>
    .ok (XML.mk "Message" [("id", toString id), ("name", s.name)]
      serializer.contents "")

/-- `database_to_kcd`: build `struct_defs`, serialize each message with its
enumeration index as id, and wrap everything in a `NetworkDefinition`. -/
def database_to_kcd (db : Database) (fuel : Nat) : Except PyError XML :=
  match buildStructDefs db with
  | .error e => .error e
  | .ok struct_defs =>
    match mapME (fun p =>
        (match List.lookup p.2.1 struct_defs with
        | none => .error (.keyError p.2.1)
        | some d => d.serialize_message_kcd struct_defs fuel p.1 :
          Except PyError XML)) db.messages.enum with
    | .error e => .error e
    | .ok messages =>
      .ok (XML.mk "NetworkDefinition"
        [("xmlns:xsi", "http://www.w3.org/2001/XMLSchema-instance"),
         ("xmlns", "http://kayak.2codeornot2code.org/1.0"),
         ("xsi:noNamespaceSchemaLocation", "Definition.xsd")]
        [XML.mk "Document"
          [("name", db.name), ("version", "1.0"), ("author", "autogenerated"),
           ("date", "1970-01-01")] [] "Autogenerated from canspec.",
         XML.mk "Bus" [("name", "Main")] messages ""] "")

/-- The `size` computed for a reference member while emitting C++:
`1` for `bool`, otherwise `struct_defs[typ].size(struct_defs)`. -/
def refSizeCpp (struct_defs : List (String × CANStruct)) (fuel : Nat)
    (t : String) : Except PyError Nat :=
  if t = "bool" then .ok 1
  else
    match List.lookup t struct_defs with
    | none => .error (.keyError t)
    | some d => CANStruct.size struct_defs fuel d

/-- The record-field lines of the generated `struct` definition. -/
def cppFieldLine (p : String × Member) : String :=
  match p.2 with
  | .sig _ => "  double " ++ p.1 ++ ";"
  | .ref t => "  " ++ t ++ " " ++ p.1 ++ ";"

/-- One line of the generated `_deserialize` body. -/
def cppDeserializeLine (struct_defs : List (String × CANStruct)) (fuel : Nat)
    (p : String × Member) : Except PyError String :=
  match p.2 with
  | .sig g =>
    match g.slope with
    | .error e => .error e
    | .ok sl =>
      .ok ("  self." ++ p.1 ++ " = (double)read(buffer, " ++ toString g.size ++
        ") * " ++ ratStr sl ++ " + " ++ ratStr g.min ++ ";")
  | .ref t =>
    match refSizeCpp struct_defs fuel t with
    | .error e => .error e
    | .ok sz =>
      .ok ("  self." ++ p.1 ++ " = " ++ t ++ "_deserialize(read(buffer, " ++
        toString sz ++ "));")

/-- One line of the generated `serialize` body. -/
def cppSerializeLine (struct_defs : List (String × CANStruct)) (fuel : Nat)
    (p : String × Member) : Except PyError String :=
  match p.2 with
  | .sig g =>
    match g.slope with
    | .error e => .error e
    | .ok sl =>
      .ok ("  write(ser, " ++ toString g.size ++ ", (data." ++ p.1 ++ " - " ++
        ratStr g.min ++ ") / " ++ ratStr sl ++ ");")
  | .ref t =>
    match refSizeCpp struct_defs fuel t with
    | .error e => .error e
    | .ok sz => .ok ("  write(ser, " ++ toString sz ++ ", serialize(data." ++
        p.1 ++ "));")

/-- One member's lines of the generated `operator<<` body. -/
def cppFormatLine (p : String × Member) : String :=
  "            << \"" ++ p.1 ++ " = \" << self." ++ p.1 ++ " << \", \""

/-- `CANStruct.serialize_cpp`: the exact sequence of lines the source
emits through `output` for one type definition. -/
def CANStruct.serialize_cpp (struct_defs : List (String × CANStruct))
    (fuel : Nat) (s : CANStruct) : Except PyError (List String) :=
  match s.body with
  | none => .error .attributeError
  | some (.enum labels) =>
    .ok ([ "enum class " ++ s.name ++ " \x7b" ] ++
      labels.enum.map (fun p => "  " ++ p.2 ++ " = " ++ toString p.1 ++ ",") ++
      [ "\x7d;", "",
        "inline " ++ s.name ++ " " ++ s.name ++ "_deserialize(uint64_t buffer) \x7b",
        "  return (" ++ s.name ++ ")buffer;",
        "\x7d", "",
        "inline uint64_t serialize(" ++ s.name ++ " data) \x7b",
        "  return (uint64_t)data;",
        "\x7d", "",
        "inline std::ostream &operator<<(std::ostream &os, const " ++ s.name ++
          " &self) \x7b",
        "  switch (self) \x7b" ] ++
      (labels.map (fun item =>
        [ "  case " ++ s.name ++ "::" ++ item ++ ":",
          "    os << \"" ++ s.name ++ "::" ++ item ++ "\";",
          "    break;" ])).flatten ++
      [ "  \x7d", "  return os;", "\x7d" ])
  | some (.struct ms) =>
    match ms.mapM (cppDeserializeLine struct_defs fuel) with
    | .error e => .error e
    | .ok deserLines =>
      match ms.reverse.mapM (cppSerializeLine struct_defs fuel) with
      | .error e => .error e
      | .ok serLines =>
        .ok ([ "struct " ++ s.name ++ " \x7b" ] ++
          ms.map cppFieldLine ++
          [ "\x7d;", "",
            "inline " ++ s.name ++ " " ++ s.name ++
              "_deserialize(uint64_t buffer) \x7b",
            "  " ++ s.name ++ " self;" ] ++
          deserLines ++
          [ "  return self;", "\x7d", "",
            "inline uint64_t serialize(" ++ s.name ++ " data) \x7b",
            "  uint64_t ser = 0;" ] ++
          serLines ++
          [ "  return ser;", "\x7d", "",
            "inline std::ostream &operator<<(std::ostream &os, const " ++
              s.name ++ " &self) \x7b",
            "  return os << \"\x7b \"" ] ++
          ms.map cppFormatLine ++
          [ "            << \"\x7d\";", "\x7d" ])

/-- The fixed preamble of `database_to_cpp`, up to and including the
`enum class MessageDiscriminator \x7b` line (17 lines; the discriminator
constant for message `i` is therefore line `17 + i`, counting from 0). -/
def cppPreamble (dbName : String) : List String :=
  [ "// Structures and conversions generated by can.py.",
    "#ifndef " ++ dbName ++ "_H",
    "#define " ++ dbName ++ "_H",
    "#include <stdint.h>",
    "#include <ostream>",
    "namespace can_" ++ dbName ++ " \x7b",
    "",
    "inline uint64_t read(uint64_t &buffer, uint8_t bits) \x7b",
    "  uint64_t res = buffer & ((1 << bits) - 1);",
    "  return buffer >>= bits, res;",
    "\x7d",
    "",
    "inline void write(uint64_t &buffer, uint8_t bits, uint64_t data) \x7b",
    "  buffer <<= bits;",
    "  buffer |= data;",
    "\x7d",
    "enum class MessageDiscriminator \x7b" ]

/-- The discriminator-constant lines: one `  name = index,` line per
message, in declaration order. -/
def discriminatorLines (messages : List (String × RawNode)) : List String :=
  messages.enum.map (fun p => "  " ++ p.2.1 ++ " = " ++ toString p.1 ++ ",")

/-- The intrinsic `bool` codec lines emitted after the discriminator. -/
def cppBoolLines : List String :=
  [ "\x7d;", "",
    "inline bool bool_deserialize(uint64_t buffer) \x7b return buffer; \x7d",
    "",
    "inline uint64_t serialize(bool data) \x7b return data; \x7d" ]

/-- The per-type emission loop of `database_to_cpp`: every name in the
topological order except the `bool` hack, each through
`serialize_cpp`. -/
def cppTypeLines (struct_defs : List (String × CANStruct)) (fuel : Nat) :
    List String → Except PyError (List String)
  | [] => .ok []
  | n :: rest =>
    if n = "bool" then cppTypeLines struct_defs fuel rest
    else
      match List.lookup n struct_defs with
      | none => .error (.keyError n)
      | some d =>
        match d.serialize_cpp struct_defs fuel with
        | .error e => .error e
        | .ok ls =>
          match cppTypeLines struct_defs fuel rest with
          | .error e => .error e
          | .ok ls' => .ok (ls ++ ls')

/-- `database_to_cpp`: the full generated header, as the list of lines
passed to `putline`. -/
def database_to_cpp (db : Database) (fuel : Nat) : Except PyError (List String) :=
  match buildStructDefs db with
  | .error e => .error e
  | .ok struct_defs =>
    match struct_order struct_defs fuel with
    | .error e => .error e
    | .ok order =>
      match cppTypeLines struct_defs fuel order with
      | .error e => .error e
      | .ok typeLines =>
        .ok (cppPreamble db.name ++ discriminatorLines db.messages ++
          cppBoolLines ++ typeLines ++
          [ "\x7d // namespace can_" ++ db.name,
            "#endif // " ++ db.name ++ "_H" ])

/-- The text `database_to_cpp` returns: every `putline` call appends the
line plus a newline to `out`. -/
def database_to_cpp_str (db : Database) (fuel : Nat) : Except PyError String :=
  (database_to_cpp db fuel).map (fun ls => String.join (ls.map (· ++ "\n")))

/-- The text `_main` writes to the `--kcd` output file:
`str(database_to_kcd(input).human_readable(2))`. -/
def database_to_kcd_str (db : Database) (fuel : Nat) : Except PyError String :=
  (database_to_kcd db fuel).map (fun x => XML.human_readable fuel x 2)

/-- The file-writing tail of `_main` in `canspec.py`, returning the final
file system (path, content) in write order together with the error that
aborted the run, if any.  `open(path, 'w')` truncates the file before the
generator runs, so a generator error still leaves an empty file behind,
and the `--kcd` file is completely written before C++ generation
starts. -/
def runMain (db : Database) (kcdPath hppPath : Option String) (fuel : Nat) :
    List (String × String) × Option PyError :=
  match kcdPath with
  | some p =>
    match database_to_kcd_str db fuel with
    | .error e => ([(p, "")], some e)
    | .ok txt =>
      match hppPath with
      | some q =>
        match database_to_cpp_str db fuel with
        | .error e => ([(p, txt), (q, "")], some e)
        | .ok cpp => ([(p, txt), (q, cpp)], none)
      | none => ([(p, txt)], none)
  | none =>
    match hppPath with
    | some q =>
      match database_to_cpp_str db fuel with
      | .error e => ([(q, "")], some e)
      | .ok cpp => ([(q, cpp)], none)
    | none => ([], none)

/-- A runtime value of the generated C++ code: `bool`, `double` (modelled
as an exact rational), an `enum class` backing value, or a record listing
its field values in declaration order. -/
inductive CValue where
  | vbool : Bool → CValue
  | vnum : Rat → CValue
  | venum : Nat → CValue
  | vstruct : List CValue → CValue

/-- The emitted `read` primitive:
`res = buffer & ((1 << bits) - 1); buffer >>= bits; return res`, as
(result, advanced buffer).  (`1` is a C++ `int`, so the source has
undefined behavior for `bits` over 31; the mask is modelled
mathematically.) -/
def readBits (buffer bits : Nat) : Nat × Nat :=
  (buffer &&& ((1 <<< bits) - 1), buffer >>> bits)

/-- The emitted `write` primitive: `buffer <<= bits; buffer |= data` on a
`uint64_t` accumulator. -/
def writeBits (buffer bits data : Nat) : Nat :=
  ((buffer <<< bits) % 2 ^ 64) ||| (data % 2 ^ 64)

/-- The C++ conversion `double` → `uint64_t` applied when the signal
expression is passed to `write`: truncation (undefined behavior for
negative or oversized values, modelled as the clamped floor). -/
def doubleToU64 (q : Rat) : Nat := (⌊q⌋).toNat

/-- The member loop of the generated `_deserialize` routine, parameterized
by the recursive deserialization of a referenced type: in declared member
order, read the next bits off the cursor and convert per member kind.
Returns the field values in declared order and the advanced cursor. -/
def cppDeserializeMembersStep
    (step : CANStruct → Nat → Except PyError CValue)
    (struct_defs : List (String × CANStruct)) (fuel : Nat) :
    List (String × Member) → Nat → Except PyError (List CValue × Nat)
  | [], buffer => .ok ([], buffer)
  | (_, .sig g) :: rest, buffer =>
    match g.slope with
    | .error e => .error e
    | .ok sl =>
      match cppDeserializeMembersStep step struct_defs fuel rest
          (readBits buffer g.size).2 with
      | .error e => .error e
      | .ok (vs, b') =>
        .ok (.vnum (((readBits buffer g.size).1 : Rat) * sl + g.min) :: vs, b')
  | (_, .ref t) :: rest, buffer =>
    if t = "bool" then
      match cppDeserializeMembersStep step struct_defs fuel rest
          (readBits buffer 1).2 with
      | .error e => .error e
      | .ok (vs, b') => .ok (.vbool ((readBits buffer 1).1 != 0) :: vs, b')
    else
      match List.lookup t struct_defs with
      | none => .error (.keyError t)
      | some d =>
        match CANStruct.size struct_defs fuel d with
        | .error e => .error e
        | .ok sz =>
          match step d (readBits buffer sz).1 with
          | .error e => .error e
          | .ok v =>
            match cppDeserializeMembersStep step struct_defs fuel rest
                (readBits buffer sz).2 with
            | .error e => .error e
            | .ok (vs, b') => .ok (v :: vs, b')

/-- Semantics of the generated `X_deserialize(uint64_t buffer)` routine
for type `X`: an enum casts the raw buffer with no bounds check, a struct
reads its members in declared order off the cursor. -/
def cppDeserialize (struct_defs : List (String × CANStruct)) :
    Nat → CANStruct → Nat → Except PyError CValue
  | 0, _, _ => .error .outOfFuel
  | fuel+1, s, buffer =>
    match s.body with
    | none => .error .attributeError
    | some (.enum _) => .ok (.venum buffer)
    | some (.struct ms) =>
      match cppDeserializeMembersStep (cppDeserialize struct_defs fuel)
          struct_defs fuel ms buffer with
      | .error e => .error e
      | .ok p => .ok (.vstruct p.1)

/-- The member loop of the generated `serialize` routine, parameterized by
the recursive serialization of a referenced type.  The loop runs over the
member/value pairs already reversed (the source iterates
`reversed(self.struct_members)`), shifting the accumulator left by each
field's width and ORing in its raw value. -/
def cppSerializeMembersStep
    (step : CANStruct → CValue → Except PyError Nat)
    (struct_defs : List (String × CANStruct)) (fuel : Nat) :
    List ((String × Member) × CValue) → Nat → Except PyError Nat
  | [], ser => .ok ser
  | ((_, .sig g), v) :: rest, ser =>
    match g.slope with
    | .error e => .error e
    | .ok sl =>
      match v with
      | .vnum x =>
        cppSerializeMembersStep step struct_defs fuel rest
          (writeBits ser g.size (doubleToU64 ((x - g.min) / sl)))
      | _ => .error .typeError
  | ((_, .ref t), v) :: rest, ser =>
    if t = "bool" then
      match v with
      | .vbool b =>
        cppSerializeMembersStep step struct_defs fuel rest
          (writeBits ser 1 (if b then 1 else 0))
      | _ => .error .typeError
    else
      match List.lookup t struct_defs with
      | none => .error (.keyError t)
      | some d =>
        match CANStruct.size struct_defs fuel d with
        | .error e => .error e
        | .ok sz =>
          match step d v with
          | .error e => .error e
          | .ok n => cppSerializeMembersStep step struct_defs fuel rest
              (writeBits ser sz n)

/-- Semantics of the generated `serialize(X data)` routine for type `X`:
an enum returns its backing value, a struct starts from `ser = 0` and
writes its fields in reverse declared order. -/
def cppSerialize (struct_defs : List (String × CANStruct)) :
    Nat → CANStruct → CValue → Except PyError Nat
  | 0, _, _ => .error .outOfFuel
  | fuel+1, s, v =>
    match s.body with
    | none => .error .attributeError
    | some (.enum _) =>
      match v with
      | .venum k => .ok k
      | _ => .error .typeError
    | some (.struct ms) =>
      match v with
      | .vstruct fs =>
        cppSerializeMembersStep (cppSerialize struct_defs fuel) struct_defs fuel
          ((ms.zip fs).reverse) 0
      | _ => .error .typeError

/-- The width (in bits) the generated C++ reads for one member/writes for
one field: the computation `serialize_cpp` performs per reference member
(`1` for `bool`, otherwise `struct_defs[typ].size(struct_defs)`), and the
signal's own width for a signal member. -/
def memberWidth (struct_defs : List (String × CANStruct)) (fuel : Nat) :
    Member → Except PyError Nat
  | .sig g => .ok g.size
  | .ref t =>
    if t = "bool" then .ok 1
    else
      match List.lookup t struct_defs with
      | none => .error (.keyError t)
      | some d => CANStruct.size struct_defs fuel d

/-- Total number of bits the generated `_deserialize` for a member list
consumes (equivalently, the generated `serialize` produces): the sum of
the members' `memberWidth`s. -/
def widthMembers (struct_defs : List (String × CANStruct)) (fuel : Nat) :
    List (String × Member) → Except PyError Nat
  | [] => .ok 0
  | (_, m) :: rest =>
    match memberWidth struct_defs fuel m with
    | .error e => .error e
    | .ok w => (widthMembers struct_defs fuel rest).map (fun r => w + r)

/-- The bit width of the packed representation the generated codec for a
type uses.  It agrees with `CANStruct.size` whenever `size` succeeds and
no definition is named `bool`, but is also defined for structs with
direct `bool` members (which the emitted code handles as 1 bit while
`size` raises, claim C3). -/
def cppWidth (struct_defs : List (String × CANStruct)) :
    Nat → CANStruct → Except PyError Nat
  | 0, _ => .error .outOfFuel
  | fuel+1, s =>
    match s.body with
    | none => .error .attributeError
    | some (.enum labels) =>
      if labels.length = 0 then .error .valueError
      else .ok (Nat.clog 2 labels.length)
    | some (.struct ms) => widthMembers struct_defs fuel ms

/-- Member loop for `goodStruct`. -/
def goodMembersStep (step : CANStruct → Bool)
    (struct_defs : List (String × CANStruct)) (fuel : Nat) :
    List (String × Member) → Bool
  | [] => true
  | (_, .sig g) :: rest =>
    (decide (1 ≤ g.size) && decide (g.min ≠ g.max)) &&
      goodMembersStep step struct_defs fuel rest
  | (_, .ref t) :: rest =>
    (if t = "bool" then true
     else
       match List.lookup t struct_defs with
       | none => false
       | some d =>
         (match CANStruct.size struct_defs fuel d with
          | .ok _ => true
          | .error _ => false) && step d) &&
    goodMembersStep step struct_defs fuel rest

/-- Well-formedness of a type definition, as needed for the generated
codec to exist and be meaningful: no user definition shadows the `bool`
intrinsic; the codec's packed width is defined and fits the 64-bit
buffer; enums have at least one label; every signal has a positive width
and a non-degenerate range (so its slope is non-zero); every non-`bool`
reference resolves, has a computable `size` (the number the emitter
writes into the generated `read`/`write` calls), and is recursively
well-formed. -/
def goodStruct (struct_defs : List (String × CANStruct)) :
    Nat → CANStruct → Bool
  | 0, _ => false
  | fuel+1, s =>
    (List.lookup "bool" struct_defs).isNone &&
    ((match cppWidth struct_defs (fuel+1) s with
      | .ok w => decide (w ≤ 64)
      | .error _ => false) &&
     (match s.body with
      | none => false
      | some (.enum labels) => decide (1 ≤ labels.length)
      | some (.struct ms) =>
        goodMembersStep (goodStruct struct_defs fuel) struct_defs fuel ms))

/-- Member loop for `validValue`. -/
def validMembersStep (step : CANStruct → CValue → Bool)
    (struct_defs : List (String × CANStruct)) :
    List (String × Member) → List CValue → Bool
  | [], [] => true
  | (_, .sig g) :: rest, v :: vs =>
    (match v with
     | .vnum x =>
       decide (1 ≤ g.size) && decide (g.min ≠ g.max) &&
       (let r := (x - g.min) / ((g.max - g.min) / (2 ^ g.size - 1));
        decide (r.den = 1) && decide (0 ≤ r.num) &&
          decide (r.num < 2 ^ g.size))
     | _ => false) &&
    validMembersStep step struct_defs rest vs
  | (_, .ref t) :: rest, v :: vs =>
    (if t = "bool" then
       match v with
       | .vbool _ => true
       | _ => false
     else
       match List.lookup t struct_defs with
       | none => false
       | some d => step d v) &&
    validMembersStep step struct_defs rest vs
  | _, _ => false

/-- A record of the generated C++ type for a definition, with every
floating-point field an exact quantization level of its signal and every
enum discriminant within its bit width. -/
def validValue (struct_defs : List (String × CANStruct)) :
    Nat → CANStruct → CValue → Bool
  | 0, _, _ => false
  | fuel+1, s, v =>
    match s.body, v with
    | some (.enum labels), .venum k => decide (k < 2 ^ Nat.clog 2 labels.length)
    | some (.struct ms), .vstruct fs =>
      validMembersStep (validValue struct_defs fuel) struct_defs ms fs
    | _, _ => false

/-- The two-type cyclic schema of the spec's cycle scenario: type `A`
references `B` and `B` references `A`. -/
def cyclicStructA : CANStruct := ⟨"A", some (.struct [("x", .ref "B")])⟩

/-- Companion of `cyclicStructA`. -/
def cyclicStructB : CANStruct := ⟨"B", some (.struct [("y", .ref "A")])⟩

/-- The definition map for the cyclic scenario. -/
def cyclicDefs : List (String × CANStruct) :=
  [("A", cyclicStructA), ("B", cyclicStructB)]

theorem explore_cyclic (fuel : Nat) :
    ∀ r, "A" ∉ r → "B" ∉ r →
      explore (edgesOf cyclicDefs) fuel "A" r = .error .outOfFuel ∧
      explore (edgesOf cyclicDefs) fuel "B" r = .error .outOfFuel := by
  induction fuel with
  | zero => exact fun r _ _ => ⟨rfl, rfl⟩
  | succ f ih =>
    intro r hA hB
    have e1 : edgesOf cyclicDefs "A" = .ok ["B"] := rfl
    have e2 : edgesOf cyclicDefs "B" = .ok ["A"] := rfl
    refine ⟨?_, ?_⟩
    · have hb := (ih r hA hB).2
      simp [explore, hA, e1, exploreListStep, hb]
    · have ha := (ih r hA hB).1
      simp [explore, hB, e2, exploreListStep, ha]

theorem size_cyclic (fuel : Nat) :
    CANStruct.size cyclicDefs fuel cyclicStructA = .error .outOfFuel ∧
    CANStruct.size cyclicDefs fuel cyclicStructB = .error .outOfFuel := by
  induction fuel with
  | zero => exact ⟨rfl, rfl⟩
  | succ f ih =>
    have bA : cyclicStructA.body = some (.struct [("x", .ref "B")]) := rfl
    have bB : cyclicStructB.body = some (.struct [("y", .ref "A")]) := rfl
    have lA : List.lookup "A" cyclicDefs = some cyclicStructA := rfl
    have lB : List.lookup "B" cyclicDefs = some cyclicStructB := rfl
    refine ⟨?_, ?_⟩
    · have hb := ih.2
      simp [CANStruct.size, bA, sizeMembersStep, lB, hb]
    · have ha := ih.1
      simp [CANStruct.size, bB, sizeMembersStep, lA, ha]

/-- Claim C1: the claim says cyclic schemas fail with an explicit cycle
error after bounded work, with both the topological sort and the size
computation tracking in-progress nodes.  The code has no such tracking:
on the schema where `A` references `B` and `B` references `A`, both the
sort order computed by `database_to_cpp` and `CANStruct.size` exhaust
every recursion budget (in Python: unbounded recursion until
`RecursionError`), and no cycle error exists anywhere in the source
(`PyError` has no such constructor to raise). -/
theorem C1_cycle_unbounded_recursion_no_cycle_error :
    ∀ fuel,
      struct_order cyclicDefs fuel = .error .outOfFuel ∧
      CANStruct.size cyclicDefs fuel cyclicStructA = .error .outOfFuel := by
  intro fuel
  refine ⟨?_, (size_cyclic fuel).1⟩
  have h := explore_cyclic fuel [] (by simp) (by simp)
  have hn : cyclicDefs.map Prod.fst = ["A", "B"] := rfl
  simp [struct_order, topological_sort, hn, exploreListStep, h.1]

/-- The struct of the spec's size scenario,
`\x7ba: bool, b: \x7brange:[0,10], size:4\x7d\x7d`. -/
def boolSigStruct : CANStruct :=
  ⟨"Inner", some (.struct [("a", .ref "bool"), ("b", .sig ⟨"", 0, 10, 4⟩)])⟩

/-- A definition map holding only `boolSigStruct`; as in the source, the
built-in `bool` is never an entry of the map. -/
def boolSigDefs : List (String × CANStruct) := [("Inner", boolSigStruct)]

/-- Claim C3: the claim (and the spec's scenario) says
`size(\x7ba: bool, b: \x7brange:[0,10], size:4\x7d\x7d) = 5`, counting a
boolean member as exactly 1 bit.  The code's `size` has no `bool` special
case: it looks `bool` up in `struct_defs` — which never contains it — and
raises `KeyError('bool')` instead of returning 5.  (Both emitters do
special-case `bool` as 1 bit, so the claimed behavior is the evident
intent.) -/
theorem C3_size_bool_member_keyerror :
    CANStruct.size boolSigDefs 9 boolSigStruct = .error (.keyError "bool") := rfl

/-- Claim C8: for an enum with `N ≥ 1` labels, `size` returns
`ceil(log2 N)`: the least width `w` with `N ≤ 2 ^ w`. -/
theorem C8_enum_size_ceil_log2 (struct_defs : List (String × CANStruct))
    (fuel : Nat) (name : String) (labels : List String)
    (h : 1 ≤ labels.length) :
    CANStruct.size struct_defs (fuel+1) ⟨name, some (.enum labels)⟩ =
      .ok (Nat.clog 2 labels.length) ∧
    labels.length ≤ 2 ^ Nat.clog 2 labels.length ∧
    ∀ k, labels.length ≤ 2 ^ k → Nat.clog 2 labels.length ≤ k := by
  refine ⟨?_, Nat.le_pow_clog (by norm_num) _, fun k hk =>
    (Nat.le_pow_iff_clog_le (by norm_num)).1 hk⟩
  have h0 : labels.length ≠ 0 := by omega
  show (if labels.length = 0 then (.error .valueError : Except PyError Nat)
    else .ok (Nat.clog 2 labels.length)) = .ok (Nat.clog 2 labels.length)
  rw [if_neg h0]

/-- Witness for C8 at the spec's `N = 257` data point: the computed width
is the least `w` with `257 ≤ 2 ^ w`, namely 9. -/
theorem C8_enum_size_ceil_log2_witness :
    1 ≤ (List.replicate 257 "L").length ∧
    CANStruct.size [] 5 ⟨"E", some (.enum (List.replicate 257 "L"))⟩ =
      .ok (Nat.clog 2 (List.replicate 257 "L").length) ∧
    (List.replicate 257 "L").length ≤
      2 ^ Nat.clog 2 (List.replicate 257 "L").length ∧
    ∀ k, (List.replicate 257 "L").length ≤ 2 ^ k →
      Nat.clog 2 (List.replicate 257 "L").length ≤ k := by
  refine ⟨?_, C8_enum_size_ceil_log2 [] 4 "E" (List.replicate 257 "L") ?_⟩ <;>
    rw [List.length_replicate] <;> omega

/-- Claim C10: loading a raw type node that is neither a sequence nor a
mapping raises nothing and returns an object with no attributes set, and
every later operation on that object — `dependencies`, `size`, the KCD
emitter and the C++ emitter — fails with `AttributeError` (never the
semantic error). -/
theorem C10_scalar_node_attribute_errors (name : String)
    (struct_defs : List (String × CANStruct)) (fuel : Nat) :
    CANStruct.init name .scalar = .ok ⟨name, none⟩ ∧
    CANStruct.dependencies ⟨name, none⟩ = .error .attributeError ∧
    CANStruct.size struct_defs (fuel+1) ⟨name, none⟩ = .error .attributeError ∧
    CANStruct.serialize_members_kcd struct_defs (fuel+1) ⟨name, none⟩ ⟨0, []⟩ ""
      = .error .attributeError ∧
    CANStruct.serialize_cpp struct_defs fuel ⟨name, none⟩
      = .error .attributeError :=
  ⟨rfl, rfl, rfl, rfl, rfl⟩

theorem dictInsert_lookup {α : Type} (k n : String) (v : α) (l : List (String × α)) :
    List.lookup n (dictInsert k v l) = if n = k then some v else List.lookup n l := by
  induction l with
  | nil =>
    by_cases h : n = k
    · subst h; simp [dictInsert, List.lookup]
    · have hb : (n == k) = false := beq_eq_false_iff_ne.mpr h
      simp [dictInsert, List.lookup, hb, h]
  | cons p rest ih =>
    obtain ⟨k', v'⟩ := p
    by_cases h1 : k' = k
    · subst h1
      by_cases h2 : n = k'
      · subst h2; simp [dictInsert, List.lookup]
      · have hb : (n == k') = false := beq_eq_false_iff_ne.mpr h2
        simp [dictInsert, List.lookup, hb, h2]
    · by_cases h2 : n = k'
      · subst h2
        have h3 : ¬ n = k := fun hh => h1 (hh ▸ rfl)
        simp [dictInsert, h1, List.lookup, h3]
      · have hb : (n == k') = false := beq_eq_false_iff_ne.mpr h2
        simp [dictInsert, h1, List.lookup, hb, ih]

theorem dictInsert_keys {α : Type} (k : String) (v : α) (l : List (String × α)) :
    (dictInsert k v l).map Prod.fst =
      if k ∈ l.map Prod.fst then l.map Prod.fst else l.map Prod.fst ++ [k] := by
  induction l with
  | nil => simp [dictInsert]
  | cons p rest ih =>
    obtain ⟨k', v'⟩ := p
    by_cases h1 : k' = k
    · subst h1; simp [dictInsert]
    · have h1' : ¬ k = k' := fun hh => h1 hh.symm
      by_cases h2 : k ∈ rest.map Prod.fst <;>
        simp [dictInsert, h1, h1', h2, ih]

theorem CANStruct.init_name (nm : String) (raw : RawNode) (s : CANStruct)
    (h : CANStruct.init nm raw = .ok s) : s.name = nm := by
  cases raw with
  | list ms =>
    simp only [CANStruct.init] at h
    cases hm : mapME loadMember ms with
    | error e => rw [hm] at h; exact absurd h (by simp [Except.map])
    | ok members => rw [hm] at h; simp [Except.map] at h; rw [← h]
  | dict kvs =>
    simp only [CANStruct.init] at h
    match kvs with
    | [] => exact absurd h (by simp)
    | [(k, labels)] =>
      by_cases hk : k = "enum"
      · simp [hk] at h; rw [← h]
      · simp [hk] at h
    | (a :: b :: rest) => exact absurd h (by simp)
  | scalar =>
    simp only [CANStruct.init] at h
    simp at h; rw [← h]

theorem buildStructDefsFrom_invariant (l : List (String × RawNode)) :
    ∀ (acc defs : List (String × CANStruct)),
      (acc.map Prod.fst).Nodup →
      (∀ n s, List.lookup n acc = some s → s.name = n) →
      buildStructDefsFrom acc l = .ok defs →
      (defs.map Prod.fst).Nodup ∧
        ∀ n s, List.lookup n defs = some s → s.name = n := by
  induction l with
  | nil =>
    intro acc defs h1 h2 h
    cases h; exact ⟨h1, h2⟩
  | cons p rest ih =>
    intro acc defs h1 h2 h
    obtain ⟨nm, raw⟩ := p
    simp only [buildStructDefsFrom] at h
    cases hi : CANStruct.init nm raw with
    | error e => rw [hi] at h; cases h
    | ok s =>
      rw [hi] at h
      refine ih (dictInsert nm s acc) defs ?_ ?_ h
      · rw [dictInsert_keys]
        by_cases hm : nm ∈ acc.map Prod.fst
        · simp [hm, h1]
        · simp [hm, h1, List.nodup_append, hm]
      · intro n s' hl
        rw [dictInsert_lookup] at hl
        by_cases hn : n = nm
        · rw [if_pos hn] at hl
          cases hl
          exact (CANStruct.init_name nm raw s hi).trans hn.symm
        · rw [if_neg hn] at hl
          exact h2 n s' hl

theorem buildStructDefs_names (db : Database)
    (defs : List (String × CANStruct)) (h : buildStructDefs db = .ok defs) :
    (defs.map Prod.fst).Nodup ∧
      ∀ n s, List.lookup n defs = some s → s.name = n :=
  buildStructDefsFrom_invariant (db.structs ++ db.messages) [] defs
    (by simp) (by simp [List.lookup]) h

theorem mapME_ok_get {α β : Type} (f : α → Except PyError β) (l : List α) :
    ∀ ys, mapME f l = .ok ys →
      ys.length = l.length ∧
      ∀ i (hi : i < l.length), ∃ y, ys.get? i = some y ∧
        f (l.get ⟨i, hi⟩) = .ok y := by
  induction l with
  | nil =>
    intro ys h
    cases h; simp
  | cons a rest ih =>
    intro ys h
    simp only [mapME] at h
    cases ha : f a with
    | error e => rw [ha] at h; cases h
    | ok b =>
      rw [ha] at h
      cases hr : mapME f rest with
      | error e => rw [hr] at h; cases h
      | ok bs =>
        rw [hr] at h
        simp only [Except.map] at h
        cases h
        obtain ⟨hlen, hget⟩ := ih bs hr
        refine ⟨by simp [hlen], ?_⟩
        intro i hi
        match i with
        | 0 => exact ⟨b, rfl, ha⟩
        | Nat.succ j =>
          obtain ⟨y, hy1, hy2⟩ := hget j (by simp only [List.length_cons] at hi; omega)
          exact ⟨y, by simpa using hy1, hy2⟩

/-- Claim C5: for every message, the `id` attribute of its `Message` node
in the KCD document and its `MessageDiscriminator` constant in the C++
header both equal the message's zero-based position in declaration order
of the `messages` section (the discriminator constant for message `i` is
line `17 + i` of the header, right after the 17 fixed preamble lines). -/
theorem C5_message_id_equals_discriminant (db : Database) (fuel : Nat)
    (xml : XML) (lines : List String)
    (hk : database_to_kcd db fuel = .ok xml)
    (hc : database_to_cpp db fuel = .ok lines)
    (i : Nat) (hi : i < db.messages.length) :
    (∃ msgs contents,
      xml.children.get? 1 = some (XML.mk "Bus" [("name", "Main")] msgs "") ∧
      msgs.get? i = some (XML.mk "Message"
        [("id", toString i), ("name", (db.messages.get ⟨i, hi⟩).1)] contents "")) ∧
    lines.get? (17 + i) =
      some ("  " ++ (db.messages.get ⟨i, hi⟩).1 ++ " = " ++ toString i ++ ",") := by
  constructor
  · -- KCD side
    simp only [database_to_kcd] at hk
    split at hk
    · cases hk
    case _ struct_defs hd =>
      split at hk
      · cases hk
      case _ msgs hm =>
        cases hk
        obtain ⟨hlen, hget⟩ := mapME_ok_get _ db.messages.enum msgs hm
        have hi' : i < db.messages.enum.length := by rw [List.enum_length]; exact hi
        obtain ⟨y, hy1, hy2⟩ := hget i hi'
        have henum : db.messages.enum.get ⟨i, hi'⟩ = (i, db.messages.get ⟨i, hi⟩) := by
          simp [List.getElem_enum]
        rw [henum] at hy2
        simp only at hy2
        split at hy2
        · cases hy2
        case _ d hd2 =>
          simp only [CANStruct.serialize_message_kcd] at hy2
          split at hy2
          · cases hy2
          case _ ser hs =>
            cases hy2
            have hname : d.name = (db.messages.get ⟨i, hi⟩).1 :=
              (buildStructDefs_names db struct_defs hd).2 _ _ hd2
            exact ⟨msgs, ser.contents, rfl, by rw [hy1, hname]⟩
  · -- C++ side
    simp only [database_to_cpp] at hc
    split at hc
    · cases hc
    case _ struct_defs hd =>
      split at hc
      · cases hc
      case _ order ho =>
        split at hc
        · cases hc
        case _ typeLines ht =>
          cases hc
          have hdisc : (discriminatorLines db.messages).length = db.messages.length := by
            simp [discriminatorLines, List.enum_length]
          have h1 : 17 + i <
              (cppPreamble db.name ++ discriminatorLines db.messages).length := by
            simp only [List.length_append, hdisc]
            have : (cppPreamble db.name).length = 17 := rfl
            omega
          rw [List.append_assoc _ cppBoolLines,
            List.append_assoc (cppPreamble db.name ++ discriminatorLines db.messages),
            List.get?_append h1]
          have h2 : (cppPreamble db.name).length ≤ 17 + i := by
            have : (cppPreamble db.name).length = 17 := rfl
            omega
          rw [List.get?_append_right h2]
          have h3 : 17 + i - (cppPreamble db.name).length = i := by
            have : (cppPreamble db.name).length = 17 := rfl
            omega
          rw [h3]
          simp only [discriminatorLines, List.get?_map, List.get?_enum,
            List.get?_eq_get hi]
          rfl

/-- The Ping/Pong schema of the spec's discriminator scenario. -/
def pingPongDb : Database :=
  ⟨"pp", [],
   [("Ping", .list [("a", .refName "bool")]),
    ("Pong", .list [("b", .refName "bool")])]⟩

/-- The KCD document generated for `pingPongDb`. -/
def ppXml : XML := (database_to_kcd pingPongDb 9).toOption.getD (XML.mk "" [] [] "")

/-- The C++ header lines generated for `pingPongDb`. -/
def ppLines : List String := (database_to_cpp pingPongDb 9).toOption.getD []

/-- Witness for C5 on the Ping/Pong schema at message index 0. -/
theorem C5_message_id_witness :
    database_to_kcd pingPongDb 9 = .ok ppXml ∧
    database_to_cpp pingPongDb 9 = .ok ppLines ∧
    ((∃ msgs contents,
      ppXml.children.get? 1 = some (XML.mk "Bus" [("name", "Main")] msgs "") ∧
      msgs.get? 0 = some (XML.mk "Message"
        [("id", toString 0),
         ("name", (pingPongDb.messages.get ⟨0, by decide⟩).1)] contents "")) ∧
    ppLines.get? (17 + 0) =
      some ("  " ++ (pingPongDb.messages.get ⟨0, by decide⟩).1 ++ " = " ++
        toString 0 ++ ",")) :=
  ⟨rfl, rfl,
    C5_message_id_equals_discriminant pingPongDb 9 ppXml ppLines rfl rfl 0 (by decide)⟩

/-- A schema whose KCD generation succeeds but whose C++ generation
raises: `Inner` contains a `bool` member, so computing `size(Inner)` while
emitting message `M` raises `KeyError('bool')` — after the KCD file has
already been completely written. -/
def partialDb : Database :=
  ⟨"demo",
   [("Inner", .list [("a", .refName "bool")])],
   [("M", .list [("p", .refName "Inner")])]⟩

set_option maxRecDepth 8000 in
/-- Counterexample for claim C9: on `partialDb` with both outputs
requested, the run raises (`KeyError('bool')` during C++ generation), yet
afterwards the KCD file is fully written (non-empty) and the C++ file
exists empty — partial output, neither "both artifacts produced" nor
"nothing written". -/
theorem C9_counterexample_partial_output :
    (runMain partialDb (some "out.kcd") (some "out.hpp") 9).2 =
      some (.keyError "bool") ∧
    (runMain partialDb (some "out.kcd") (some "out.hpp") 9).1.map Prod.fst =
      ["out.kcd", "out.hpp"] ∧
    (runMain partialDb (some "out.kcd") (some "out.hpp") 9).1.map
      (fun f => f.2.isEmpty) = [false, true] :=
  ⟨rfl, rfl, rfl⟩

/-- Claim C9 as amended: generation errors abort the run, but output files
are written sequentially, so everything written before the failing phase
persists: when both outputs are requested, descriptor generation succeeds
and codec generation fails, the run leaves the full descriptor file and an
empty (just-truncated) codec file behind. -/
theorem C9_error_leaves_earlier_outputs (db : Database) (p q : String)
    (fuel : Nat) (txt : String) (e : PyError)
    (hk : database_to_kcd_str db fuel = .ok txt)
    (hc : database_to_cpp_str db fuel = .error e) :
    runMain db (some p) (some q) fuel = ([(p, txt), (q, "")], some e) := by
  simp [runMain, hk, hc]

set_option maxRecDepth 8000 in
/-- Witness for the amended C9 on `partialDb`. -/
theorem C9_error_leaves_earlier_outputs_witness :
    runMain partialDb (some "out.kcd") (some "out.hpp") 9 =
      ([("out.kcd", (database_to_kcd_str partialDb 9).toOption.getD ""),
        ("out.hpp", "")], some (.keyError "bool")) :=
  C9_error_leaves_earlier_outputs partialDb "out.kcd" "out.hpp" 9 _ _ rfl rfl

/-- Member loop for `kcdFit`. -/
def kcdFitMembersStep (step : CANStruct → Bool)
    (struct_defs : List (String × CANStruct)) : List (String × Member) → Bool
  | [] => true
  | (_, .sig g) :: rest =>
    decide (1 ≤ g.size) && kcdFitMembersStep step struct_defs rest
  | (_, .ref t) :: rest =>
    (if t = "bool" then false
     else
       match List.lookup t struct_defs with
       | none => false
       | some d => step d) &&
    kcdFitMembersStep step struct_defs rest

/-- The member trees on which the claimed size/descriptor agreement can
hold at all: attributes set, enums non-empty, signal widths positive (a
zero-width signal makes `slope()` raise while `size` still counts it), no
`bool` members anywhere (a `bool` member makes `size` raise
`KeyError('bool')` while the emitter emits a 1-bit leaf — claims C3/C4),
and references resolving recursively. -/
def kcdFit (struct_defs : List (String × CANStruct)) : Nat → CANStruct → Bool
  | 0, _ => false
  | fuel+1, s =>
    match s.body with
    | none => false
    | some (.enum labels) => decide (1 ≤ labels.length)
    | some (.struct ms) => kcdFitMembersStep (kcdFit struct_defs fuel) struct_defs ms

/-- The one-member message `\x7bm: bool\x7d` used to refute C4 as
stated. -/
def boolMsgStruct : CANStruct := ⟨"M", some (.struct [("m", .ref "bool")])⟩

/-- Definition map containing only `boolMsgStruct`. -/
def boolMsgDefs : List (String × CANStruct) := [("M", boolMsgStruct)]

/-- Counterexample for claim C4 as stated: for the message `\x7bm: bool\x7d`
the emitter succeeds with final bit cursor 1 (one `Signal` leaf of length
1), but `size(message-as-struct)` has no value at all — it raises
`KeyError('bool')` — so the claimed equality fails on this acyclic,
fully-resolvable schema. -/
theorem C4_counterexample_bool_message :
    CANStruct.serialize_members_kcd boolMsgDefs 5 boolMsgStruct ⟨0, []⟩ "" =
      .ok ⟨1, [XML.mk "Signal" [("name", "m"), ("offset", "0"), ("length", "1")]
        [XML.mk "Value" [("type", "unsigned")] [] ""] ""]⟩ ∧
    CANStruct.size boolMsgDefs 5 boolMsgStruct = .error (.keyError "bool") :=
  ⟨rfl, rfl⟩

/-- Claim C4 as amended: for a member tree with no `bool` members (and
well-formed signals/enums, `kcdFit`), whenever `size` returns `W` the KCD
emitter succeeds, advances the bit cursor from any start position by
exactly `W`, and the emitted nodes are all `Signal` leaves whose `length`
attributes are the prints of widths summing to `W`.  (As stated the claim
is refuted by `C4_counterexample_bool_message`: a `bool` member makes
`size` raise while the emitter still advances the cursor.) -/
theorem C4_cursor_and_lengths_equal_size (fuel : Nat) :
    ∀ (struct_defs : List (String × CANStruct)) (s : CANStruct) (W : Nat)
      (ser : KCDMessageSerializer) (nb : String),
      kcdFit struct_defs fuel s = true →
      CANStruct.size struct_defs fuel s = .ok W →
      ∃ (nodes : List XML) (ws : List Nat),
        CANStruct.serialize_members_kcd struct_defs fuel s ser nb =
          .ok ⟨ser.bit_pos + W, ser.contents ++ nodes⟩ ∧
        nodes.map (fun x => List.lookup "length" x.properties) =
          ws.map (fun w => some (toString w)) ∧
        ws.sum = W ∧
        ∀ x ∈ nodes, x.name = "Signal" := by
  induction fuel with
  | zero =>
    intro struct_defs s W ser nb hfit _
    simp [kcdFit] at hfit
  | succ f ih =>
    intro struct_defs s W ser nb hfit hsz
    obtain ⟨sname, body⟩ := s
    cases body with
    | none => simp [kcdFit] at hfit
    | some sb =>
      cases sb with
      | enum labels =>
        simp only [kcdFit, decide_eq_true_eq] at hfit
        have hlen : labels.length ≠ 0 := by omega
        simp only [CANStruct.size, if_neg hlen] at hsz
        have hW : Nat.clog 2 labels.length = W := by
          exact Except.ok.inj hsz
        have hsz1 : CANStruct.size [] 1 ⟨sname, some (.enum labels)⟩ = .ok W := by
          simp only [CANStruct.size, if_neg hlen, hW]
        refine ⟨[XML.mk "Signal"
            [("name", rstripUnderscore nb),
             ("offset", toString ser.bit_pos), ("length", toString W)]
            [XML.mk "LabelSet" []
              (labels.enum.map (fun p =>
                XML.mk "Label" [("name", p.2), ("value", toString p.1)] [] ""))
              ""] ""], [W], ?_, rfl, by simp, by simp [XML.name]⟩
        simp only [CANStruct.serialize_members_kcd, hsz1,
          KCDMessageSerializer.write]
      | struct ms =>
        simp only [kcdFit] at hfit
        simp only [CANStruct.size] at hsz
        simp only [CANStruct.serialize_members_kcd]
        induction ms generalizing W ser nb with
        | nil =>
          cases hsz
          exact ⟨[], [], by simp [serializeKCDMembersStep], rfl, rfl, by simp⟩
        | cons p rest ihm =>
          obtain ⟨nm, m⟩ := p
          cases m with
          | sig g =>
            simp only [kcdFitMembersStep, Bool.and_eq_true,
              decide_eq_true_eq] at hfit
            obtain ⟨hs1, hfitRest⟩ := hfit
            have hs0 : ¬ g.size = 0 := by omega
            simp only [sizeMembersStep] at hsz
            cases hrest : sizeMembersStep (CANStruct.size struct_defs f)
                struct_defs rest with
            | error e => rw [hrest] at hsz; simp [Except.map] at hsz
            | ok Wr =>
              rw [hrest] at hsz
              simp only [Except.map] at hsz
              have hW : g.size + Wr = W := Except.ok.inj hsz
              obtain ⟨nodesR, wsR, h1, h2, h3, h4⟩ :=
                ihm Wr (ser.write
                  (XML.mk "Signal"
                    [("name", nb ++ nm), ("offset", toString ser.bit_pos),
                     ("length", toString g.size)]
                    [XML.mk "Value"
                      [("type", "unsigned"), ("unit", g.unit),
                       ("slope", ratStr ((g.max - g.min) / (2 ^ g.size - 1))),
                       ("intercept", ratStr g.min), ("min", ratStr g.min),
                       ("max", ratStr g.max)] [] ""] "")
                  g.size) nb hfitRest hrest
              refine ⟨XML.mk "Signal"
                  [("name", nb ++ nm), ("offset", toString ser.bit_pos),
                   ("length", toString g.size)]
                  [XML.mk "Value"
                    [("type", "unsigned"), ("unit", g.unit),
                     ("slope", ratStr ((g.max - g.min) / (2 ^ g.size - 1))),
                     ("intercept", ratStr g.min), ("min", ratStr g.min),
                     ("max", ratStr g.max)] [] ""] "" :: nodesR,
                g.size :: wsR, ?_, ?_, ?_, ?_⟩
              · simp only [serializeKCDMembersStep, CANSignal.serialize_kcd,
                  CANSignal.slope, if_neg hs0]
                rw [h1]
                simp only [KCDMessageSerializer.write]
                congr 2
                · omega
                · simp
              · simp only [List.map_cons, List.cons.injEq]
                exact ⟨rfl, h2⟩
              · simp only [List.sum_cons, h3]; omega
              · intro x hx
                rcases List.mem_cons.1 hx with hx | hx
                · subst hx; rfl
                · exact h4 x hx
          | ref t =>
            simp only [kcdFitMembersStep, Bool.and_eq_true] at hfit
            obtain ⟨hhead, hfitRest⟩ := hfit
            by_cases ht : t = "bool"
            · rw [if_pos ht] at hhead; cases hhead
            · rw [if_neg ht] at hhead
              cases hl : List.lookup t struct_defs with
              | none => rw [hl] at hhead; cases hhead
              | some d =>
                rw [hl] at hhead
                simp only [sizeMembersStep, hl] at hsz
                cases hd : CANStruct.size struct_defs f d with
                | error e => rw [hd] at hsz; cases hsz
                | ok wd =>
                  rw [hd] at hsz
                  cases hrest : sizeMembersStep (CANStruct.size struct_defs f)
                      struct_defs rest with
                  | error e => rw [hrest] at hsz; simp [Except.map] at hsz
                  | ok Wr =>
                    rw [hrest] at hsz
                    simp only [Except.map] at hsz
                    have hW : wd + Wr = W := Except.ok.inj hsz
                    obtain ⟨nodesD, wsD, hd1, hd2, hd3, hd4⟩ :=
                      ih struct_defs d wd ser (nb ++ nm ++ "_") hhead hd
                    obtain ⟨nodesR, wsR, h1, h2, h3, h4⟩ :=
                      ihm Wr ⟨ser.bit_pos + wd, ser.contents ++ nodesD⟩ nb
                        hfitRest hrest
                    refine ⟨nodesD ++ nodesR, wsD ++ wsR, ?_, ?_, ?_, ?_⟩
                    · simp only [serializeKCDMembersStep, if_neg ht, hl, hd1]
                      rw [h1]
                      congr 2
                      · show ser.bit_pos + wd + Wr = ser.bit_pos + W
                        omega
                      · show ser.contents ++ nodesD ++ nodesR =
                          ser.contents ++ (nodesD ++ nodesR)
                        simp
                    · simp only [List.map_append, hd2, h2]
                    · simp only [List.sum_append, hd3, h3]; omega
                    · intro x hx
                      rcases List.mem_append.1 hx with hx | hx
                      · exact hd4 x hx
                      · exact h4 x hx

/-- A nested bool-free schema for the C4 witness: `P = \x7bx: 4-bit,
y: 3-bit\x7d`, message `Msg = \x7bp: P, z: 2-bit\x7d`, total 9 bits. -/
def c4InnerStruct : CANStruct :=
  ⟨"P", some (.struct [("x", .sig ⟨"", 0, 10, 4⟩), ("y", .sig ⟨"", 0, 1, 3⟩)])⟩

/-- The witness message for C4. -/
def c4MsgStruct : CANStruct :=
  ⟨"Msg", some (.struct [("p", .ref "P"), ("z", .sig ⟨"", 0, 5, 2⟩)])⟩

/-- Definition map for the C4 witness. -/
def c4Defs : List (String × CANStruct) := [("P", c4InnerStruct), ("Msg", c4MsgStruct)]

/-- Witness for the amended C4 on the 9-bit nested message. -/
theorem C4_cursor_and_lengths_equal_size_witness :
    kcdFit c4Defs 5 c4MsgStruct = true ∧
    CANStruct.size c4Defs 5 c4MsgStruct = .ok 9 ∧
    ∃ (nodes : List XML) (ws : List Nat),
      CANStruct.serialize_members_kcd c4Defs 5 c4MsgStruct ⟨0, []⟩ "" =
        .ok ⟨9, nodes⟩ ∧
      nodes.map (fun x => List.lookup "length" x.properties) =
        ws.map (fun w => some (toString w)) ∧
      ws.sum = 9 ∧
      ∀ x ∈ nodes, x.name = "Signal" :=
  ⟨rfl, rfl,
    C4_cursor_and_lengths_equal_size 5 c4Defs c4MsgStruct 9 ⟨0, []⟩ "" rfl rfl⟩

theorem readBits_fst (b w : Nat) : (readBits b w).1 = b % 2 ^ w := by
  simp [readBits, Nat.shiftLeft_eq, Nat.and_pow_two_sub_one_eq_mod]

theorem readBits_snd (b w : Nat) : (readBits b w).2 = b / 2 ^ w := by
  simp [readBits, Nat.shiftRight_eq_div_pow]

theorem lor_mod_left (x d k : Nat) (hd : d < 2 ^ k) :
    (x % 2 ^ k) ||| d = (x ||| d) % 2 ^ k := by
  apply Nat.eq_of_testBit_eq
  intro j
  rw [Nat.testBit_lor, Nat.testBit_mod_two_pow, Nat.testBit_mod_two_pow,
    Nat.testBit_lor]
  rcases Nat.lt_or_ge j k with hj | hj
  · simp [hj]
  · have hdj : d.testBit j = false :=
      Nat.testBit_lt_two_pow (lt_of_lt_of_le hd (Nat.pow_le_pow_right (by norm_num) hj))
    simp [Nat.not_lt_of_le hj, hdj]

theorem lor_eq_add_of_lt (a w c : Nat) (h : c < 2 ^ w) :
    a * 2 ^ w ||| c = a * 2 ^ w + c := by
  apply Nat.eq_of_testBit_eq
  intro k
  rw [Nat.testBit_lor, mul_comm a (2 ^ w), Nat.testBit_mul_pow_two_add a h k,
    Nat.testBit_mul_pow_two]
  rcases Nat.lt_or_ge k w with hk | hk
  · simp [hk, Nat.not_le_of_lt hk]
  · simp [hk, Nat.not_lt_of_le hk]
    intro hc
    exact absurd (Nat.testBit_lt_two_pow
      (lt_of_lt_of_le h (Nat.pow_le_pow_right (by norm_num) hk))) (by simp [hc])

theorem writeBits_eq (acc w d : Nat) (hd : d < 2 ^ w) (hw : w ≤ 64) :
    writeBits acc w d = (acc * 2 ^ w + d) % 2 ^ 64 := by
  have hd64 : d < 2 ^ 64 :=
    lt_of_lt_of_le hd (Nat.pow_le_pow_right (by norm_num) hw)
  rw [writeBits, Nat.mod_eq_of_lt hd64, Nat.shiftLeft_eq,
    lor_mod_left _ _ _ hd64, lor_eq_add_of_lt _ _ _ hd]

theorem serializeMembersStep_append (struct_defs : List (String × CANStruct))
    (fuel : Nat) (l₁ l₂ : List ((String × Member) × CValue)) :
    ∀ acc, cppSerializeMembersStep (cppSerialize struct_defs fuel) struct_defs
        fuel (l₁ ++ l₂) acc =
      match cppSerializeMembersStep (cppSerialize struct_defs fuel) struct_defs
          fuel l₁ acc with
      | .error e => .error e
      | .ok a₁ => cppSerializeMembersStep (cppSerialize struct_defs fuel)
          struct_defs fuel l₂ a₁ := by
  induction l₁ with
  | nil => intro acc; rfl
  | cons p rest ih =>
    intro acc
    obtain ⟨⟨nm, m⟩, v⟩ := p
    cases m with
    | sig g =>
      simp only [List.cons_append, cppSerializeMembersStep]
      cases g.slope with
      | error e => rfl
      | ok sl =>
        cases v with
        | vnum x => exact ih _
        | vbool b => rfl
        | venum k => rfl
        | vstruct fs => rfl
    | ref t =>
      simp only [List.cons_append, cppSerializeMembersStep]
      by_cases ht : t = "bool"
      · rw [if_pos ht, if_pos ht]
        cases v with
        | vbool b => exact ih _
        | vnum x => rfl
        | venum k => rfl
        | vstruct fs => rfl
      · rw [if_neg ht, if_neg ht]
        cases List.lookup t struct_defs with
        | none => rfl
        | some d =>
          dsimp only
          cases CANStruct.size struct_defs fuel d with
          | error e => rfl
          | ok sz =>
            dsimp only
            cases cppSerialize struct_defs fuel d v with
            | error e => rfl
            | ok n => exact ih _

/-- The slope value of a well-formed signal, as a total rational. -/
def slopeVal (g : CANSignal) : Rat := (g.max - g.min) / (2 ^ g.size - 1)

theorem slope_ok (g : CANSignal) (h1 : 1 ≤ g.size) :
    g.slope = .ok (slopeVal g) := by
  have : ¬ g.size = 0 := by omega
  simp [CANSignal.slope, slopeVal, this]

theorem slopeVal_ne_zero (g : CANSignal) (h1 : 1 ≤ g.size)
    (h2 : g.min ≠ g.max) : slopeVal g ≠ 0 := by
  apply div_ne_zero
  · exact sub_ne_zero.mpr (fun hh => h2 hh.symm)
  · have : (1 : Rat) < 2 ^ g.size :=
      one_lt_pow (by norm_num) (by omega)
    exact sub_ne_zero.mpr (ne_of_gt this)

theorem sig_raw_roundtrip (g : CANSignal) (h1 : 1 ≤ g.size)
    (h2 : g.min ≠ g.max) (raw : Nat) :
    doubleToU64 ((((raw : Rat) * slopeVal g + g.min) - g.min) / slopeVal g)
      = raw := by
  have hs := slopeVal_ne_zero g h1 h2
  rw [add_sub_cancel_right, mul_div_cancel_right₀ _ hs, doubleToU64]
  rw [Int.floor_natCast]
  exact Int.toNat_natCast raw

theorem sig_valid_level (g : CANSignal) (h1 : 1 ≤ g.size)
    (h2 : g.min ≠ g.max) (x : Rat)
    (hden : ((x - g.min) / slopeVal g).den = 1)
    (hpos : 0 ≤ ((x - g.min) / slopeVal g).num)
    (hlt : ((x - g.min) / slopeVal g).num < 2 ^ g.size) :
    doubleToU64 ((x - g.min) / slopeVal g) < 2 ^ g.size ∧
    (doubleToU64 ((x - g.min) / slopeVal g) : Rat) * slopeVal g + g.min = x := by
  set r := (x - g.min) / slopeVal g with hr
  have hs := slopeVal_ne_zero g h1 h2
  have hnum : (r.num : Rat) = r := (Rat.den_eq_one_iff r).mp hden
  have hfl : ⌊r⌋ = r.num := by
    conv_lhs => rw [← hnum]
    exact Int.floor_intCast _
  have hfloor : doubleToU64 r = r.num.toNat := by rw [doubleToU64, hfl]
  constructor
  · rw [hfloor]
    have h2p : ((2 ^ g.size : Nat) : Int) = 2 ^ g.size := by push_cast; ring
    omega
  · rw [hfloor]
    have hcast : ((r.num.toNat : Nat) : Rat) = (r.num : Rat) := by
      have : (r.num.toNat : Int) = r.num := Int.toNat_of_nonneg hpos
      exact_mod_cast congrArg (fun z : Int => (z : Rat)) this
    rw [hcast, hnum, hr, div_mul_cancel₀ _ hs]
    ring

theorem mod_mul_add_mod (x w r : Nat) :
    ((x % 2 ^ 64) * 2 ^ w + r) % 2 ^ 64 = (x * 2 ^ w + r) % 2 ^ 64 :=
  ((Nat.mod_modEq x (2 ^ 64)).mul_right (2 ^ w)).add_right r

theorem widthMembers_of_sizeMembers (struct_defs : List (String × CANStruct))
    (hnb : List.lookup "bool" struct_defs = none) (fuel : Nat) :
    ∀ (ms : List (String × Member)) (w : Nat),
      sizeMembersStep (CANStruct.size struct_defs fuel) struct_defs ms = .ok w →
      widthMembers struct_defs fuel ms = .ok w := by
  intro ms
  induction ms with
  | nil => intro w h; exact h
  | cons p rest ih =>
    obtain ⟨nm, m⟩ := p
    intro w h
    cases m with
    | sig g =>
      simp only [sizeMembersStep] at h
      cases hr : sizeMembersStep (CANStruct.size struct_defs fuel) struct_defs rest with
      | error e => rw [hr] at h; simp [Except.map] at h
      | ok wr =>
        rw [hr] at h
        simp only [Except.map] at h
        simp only [widthMembers, memberWidth, ih wr hr, Except.map]
        exact h
    | ref t =>
      simp only [sizeMembersStep] at h
      cases hl : List.lookup t struct_defs with
      | none => rw [hl] at h; cases h
      | some d =>
        rw [hl] at h
        dsimp only at h
        have ht : t ≠ "bool" := by
          intro hh; rw [hh, hnb] at hl; cases hl
        cases hd : CANStruct.size struct_defs fuel d with
        | error e => rw [hd] at h; cases h
        | ok wd =>
          rw [hd] at h
          cases hr : sizeMembersStep (CANStruct.size struct_defs fuel)
              struct_defs rest with
          | error e => rw [hr] at h; simp [Except.map] at h
          | ok wr =>
            rw [hr] at h
            simp only [Except.map] at h
            simp only [widthMembers, memberWidth, if_neg ht, hl, hd,
              ih wr hr, Except.map]
            exact h

theorem size_ok_cppWidth (struct_defs : List (String × CANStruct))
    (hnb : List.lookup "bool" struct_defs = none) (fuel : Nat)
    (s : CANStruct) (w : Nat) (h : CANStruct.size struct_defs fuel s = .ok w) :
    cppWidth struct_defs fuel s = .ok w := by
  cases fuel with
  | zero => cases h
  | succ f =>
    obtain ⟨nm, body⟩ := s
    cases body with
    | none => cases h
    | some sb =>
      cases sb with
      | enum labels => exact h
      | struct ms =>
        simp only [CANStruct.size] at h
        simp only [cppWidth]
        exact widthMembers_of_sizeMembers struct_defs hnb f ms w h

theorem pack_lt (a b A B : Nat) (ha : a < A) (hb : b < B) :
    a * B + b < A * B := by
  calc a * B + b < a * B + B := by omega
    _ = (a + 1) * B := by ring
    _ ≤ A * B := Nat.mul_le_mul_right B ha

theorem pack_arith (acc x y w v W : Nat) (hW : w + v = W) :
    (acc * 2 ^ v + x) * 2 ^ w + y = acc * 2 ^ W + (x * 2 ^ w + y) := by
  subst hW; rw [pow_add]; ring

theorem div_lt_pow_of_lt (b w v : Nat) (h : b < 2 ^ (w + v)) :
    b / 2 ^ w < 2 ^ v := by
  rw [Nat.div_lt_iff_lt_mul (Nat.pos_pow_of_pos w (by norm_num))]
  rw [pow_add] at h
  rw [mul_comm]
  omega

theorem zip_cons_reverse {α β : Type} (a : α) (b : β) (l₁ : List α)
    (l₂ : List β) :
    ((a :: l₁).zip (b :: l₂)).reverse = (l₁.zip l₂).reverse ++ [(a, b)] := by
  simp [List.zip_cons_cons]

theorem mul_add_mod_right (a m c : Nat) : (a * m + c) % m = c % m := by
  rw [Nat.mul_comm]; exact Nat.mul_add_mod m a c

theorem mul_add_div_right (a m c : Nat) (hm : 0 < m) :
    (a * m + c) / m = a + c / m := by
  rw [Nat.mul_comm]; exact Nat.mul_add_div hm a c

theorem memberWidth_bool (struct_defs : List (String × CANStruct)) (fuel : Nat) :
    memberWidth struct_defs fuel (.ref "bool") = .ok 1 := rfl

theorem desMembers_bool_cons (step : CANStruct → Nat → Except PyError CValue)
    (struct_defs : List (String × CANStruct)) (fuel : Nat) (nm : String)
    (rest : List (String × Member)) (b : Nat) :
    cppDeserializeMembersStep step struct_defs fuel ((nm, .ref "bool") :: rest) b =
      match cppDeserializeMembersStep step struct_defs fuel rest (readBits b 1).2 with
      | .error e => .error e
      | .ok (vs, b') => .ok (.vbool ((readBits b 1).1 != 0) :: vs, b') := rfl

theorem serMembers_bool_cons (step : CANStruct → CValue → Except PyError Nat)
    (struct_defs : List (String × CANStruct)) (fuel : Nat) (nm : String)
    (v : CValue) (rest : List ((String × Member) × CValue)) (acc : Nat) :
    cppSerializeMembersStep step struct_defs fuel (((nm, .ref "bool"), v) :: rest) acc =
      match v with
      | .vbool bb => cppSerializeMembersStep step struct_defs fuel rest
          (writeBits acc 1 (if bb then 1 else 0))
      | _ => .error .typeError := rfl

theorem serMembers_nil (step : CANStruct → CValue → Except PyError Nat)
    (struct_defs : List (String × CANStruct)) (fuel ser : Nat) :
    cppSerializeMembersStep step struct_defs fuel [] ser = Except.ok ser := rfl

theorem validMembers_bool_cons (step : CANStruct → CValue → Bool)
    (struct_defs : List (String × CANStruct)) (nm : String)
    (rest : List (String × Member)) (v : CValue) (vs : List CValue) :
    validMembersStep step struct_defs ((nm, .ref "bool") :: rest) (v :: vs) =
      ((match v with
        | .vbool _ => true
        | _ => false) &&
       validMembersStep step struct_defs rest vs) := rfl

theorem C7core (struct_defs : List (String × CANStruct)) :
    ∀ (fuel : Nat) (s : CANStruct),
      goodStruct struct_defs fuel s = true →
      ∃ W, cppWidth struct_defs fuel s = .ok W ∧ W ≤ 64 ∧
        (∀ b, b < 2 ^ W →
          ∃ v, cppDeserialize struct_defs fuel s b = .ok v ∧
            cppSerialize struct_defs fuel s v = .ok b) ∧
        (∀ v, validValue struct_defs fuel s v = true →
          ∃ n, n < 2 ^ W ∧ cppSerialize struct_defs fuel s v = .ok n ∧
            cppDeserialize struct_defs fuel s n = .ok v) := by
  intro fuel
  induction fuel with
  | zero => intro s h; simp [goodStruct] at h
  | succ f ih =>
    intro s hgood
    obtain ⟨sname, body⟩ := s
    rw [goodStruct, Bool.and_eq_true, Bool.and_eq_true] at hgood
    obtain ⟨hnb0, hw64, hbody⟩ := hgood
    have hnb : List.lookup "bool" struct_defs = none :=
      Option.isNone_iff_eq_none.mp hnb0
    revert hw64 hbody
    cases body with
    | none => intro _ hbody; simp at hbody
    | some sb =>
      cases sb with
      | enum labels =>
        intro hw64 hbody
        obtain ⟨W, hW, hle⟩ : ∃ W,
            cppWidth struct_defs (f+1) ⟨sname, some (.enum labels)⟩ = .ok W ∧
              W ≤ 64 := by
          cases hcw : cppWidth struct_defs (f+1) ⟨sname, some (.enum labels)⟩ with
          | error e => rw [hcw] at hw64; cases hw64
          | ok w =>
            rw [hcw] at hw64
            exact ⟨w, rfl, by simpa using hw64⟩
        have hlen : 1 ≤ labels.length := by simpa using hbody
        have hlen0 : labels.length ≠ 0 := by omega
        have hWc : W = Nat.clog 2 labels.length := by
          simp only [cppWidth, if_neg hlen0] at hW
          exact (Except.ok.inj hW).symm
        refine ⟨W, hW, hle, ?_, ?_⟩
        · intro b _
          exact ⟨.venum b, rfl, rfl⟩
        · intro v hv
          cases v with
          | venum k =>
            have hk : k < 2 ^ Nat.clog 2 labels.length := by
              simpa [validValue] using hv
            exact ⟨k, by rw [hWc]; exact hk, rfl, rfl⟩
          | vbool b => simp [validValue] at hv
          | vnum x => simp [validValue] at hv
          | vstruct fs => simp [validValue] at hv
      | struct ms =>
        intro hw64 hbody
        obtain ⟨W, hW, hle⟩ : ∃ W,
            cppWidth struct_defs (f+1) ⟨sname, some (.struct ms)⟩ = .ok W ∧
              W ≤ 64 := by
          cases hcw : cppWidth struct_defs (f+1) ⟨sname, some (.struct ms)⟩ with
          | error e => rw [hcw] at hw64; cases hw64
          | ok w =>
            rw [hcw] at hw64
            exact ⟨w, rfl, by simpa using hw64⟩
        have hwm : widthMembers struct_defs f ms = .ok W := by
          simpa only [cppWidth] using hW
        have hgms : goodMembersStep (goodStruct struct_defs f) struct_defs f ms
            = true := hbody
        have members :
            ∀ (ms' : List (String × Member)) (W' : Nat),
              goodMembersStep (goodStruct struct_defs f) struct_defs f ms' = true →
              widthMembers struct_defs f ms' = .ok W' → W' ≤ 64 →
              (∀ b, b < 2 ^ W' →
                ∃ fields,
                  cppDeserializeMembersStep (cppDeserialize struct_defs f)
                    struct_defs f ms' b = .ok (fields, b >>> W') ∧
                  (∀ acc, acc < 2 ^ 64 →
                    cppSerializeMembersStep (cppSerialize struct_defs f)
                      struct_defs f ((ms'.zip fields).reverse) acc =
                      .ok ((acc * 2 ^ W' + b) % 2 ^ 64))) ∧
              (∀ fields,
                validMembersStep (validValue struct_defs f) struct_defs ms' fields
                  = true →
                ∃ n, n < 2 ^ W' ∧
                  cppSerializeMembersStep (cppSerialize struct_defs f)
                    struct_defs f ((ms'.zip fields).reverse) 0 = .ok n ∧
                  cppDeserializeMembersStep (cppDeserialize struct_defs f)
                    struct_defs f ms' n = .ok (fields, 0)) := by
          intro ms'
          induction ms' with
          | nil =>
            intro W' _ hwm' _
            have hW0 : W' = 0 := by
              have := Except.ok.inj hwm'
              omega
            subst hW0
            constructor
            · intro b hb
              have hb0 : b = 0 := by
                simp only [pow_zero] at hb; omega
              subst hb0
              refine ⟨[], rfl, ?_⟩
              intro acc hacc
              rw [pow_zero, mul_one, Nat.add_zero, Nat.mod_eq_of_lt hacc]
              rfl
            · intro fields hv
              cases fields with
              | nil => exact ⟨0, by norm_num, rfl, rfl⟩
              | cons a as => simp [validMembersStep] at hv
          | cons p rest ihm =>
            obtain ⟨nm, m⟩ := p
            intro W' hg hwm' hle'
            cases m with
            | sig g =>
              simp only [goodMembersStep, Bool.and_eq_true,
                decide_eq_true_eq] at hg
              obtain ⟨⟨hg1, hg2⟩, hgrest⟩ := hg
              simp only [widthMembers, memberWidth] at hwm'
              cases hr : widthMembers struct_defs f rest with
              | error e => rw [hr] at hwm'; simp [Except.map] at hwm'
              | ok Wr =>
                rw [hr] at hwm'
                simp only [Except.map] at hwm'
                have hWeq : g.size + Wr = W' := Except.ok.inj hwm'
                have hgle : g.size ≤ 64 := by omega
                have hWrle : Wr ≤ 64 := by omega
                obtain ⟨part1r, part2r⟩ := ihm Wr hgrest hr hWrle
                constructor
                · intro b hb
                  have hb1 : b / 2 ^ g.size < 2 ^ Wr :=
                    div_lt_pow_of_lt b g.size Wr (by rw [hWeq]; exact hb)
                  obtain ⟨fieldsR, hdes, hser⟩ := part1r (b / 2 ^ g.size) hb1
                  refine ⟨.vnum (((b % 2 ^ g.size : Nat) : Rat) * slopeVal g
                      + g.min) :: fieldsR, ?_, ?_⟩
                  · simp only [cppDeserializeMembersStep, slope_ok g hg1,
                      readBits_fst, readBits_snd, hdes]
                    rw [Nat.shiftRight_eq_div_pow, Nat.shiftRight_eq_div_pow,
                      Nat.div_div_eq_div_mul, ← pow_add, hWeq]
                  · intro acc hacc
                    rw [zip_cons_reverse, serializeMembersStep_append,
                      hser acc hacc]
                    simp only [cppSerializeMembersStep, slope_ok g hg1]
                    rw [sig_raw_roundtrip g hg1 hg2 (b % 2 ^ g.size)]
                    rw [writeBits_eq _ _ _ (Nat.mod_lt b (by positivity)) hgle]
                    rw [mod_mul_add_mod,
                      pack_arith acc (b / 2 ^ g.size) (b % 2 ^ g.size)
                        g.size Wr W' (by omega),
                      Nat.div_add_mod' b (2 ^ g.size)]
                · intro fields hv
                  cases fields with
                  | nil => simp [validMembersStep] at hv
                  | cons v0 fieldsR =>
                    simp only [validMembersStep, Bool.and_eq_true] at hv
                    obtain ⟨hv0, hvrest⟩ := hv
                    cases v0 with
                    | vnum x =>
                      simp only [Bool.and_eq_true, decide_eq_true_eq] at hv0
                      obtain ⟨⟨_, _⟩, ⟨hden, hposn⟩, hltn⟩ := hv0
                      obtain ⟨hlt', hx⟩ :=
                        sig_valid_level g hg1 hg2 x hden hposn hltn
                      obtain ⟨nR, hnR, hserR, hdesR⟩ := part2r fieldsR hvrest
                      refine ⟨nR * 2 ^ g.size +
                        doubleToU64 ((x - g.min) / slopeVal g), ?_, ?_, ?_⟩
                      · have := pack_lt nR _ (2 ^ Wr) (2 ^ g.size) hnR hlt'
                        calc nR * 2 ^ g.size + doubleToU64 ((x - g.min) / slopeVal g)
                            < 2 ^ Wr * 2 ^ g.size := this
                          _ = 2 ^ W' := by rw [← pow_add]; congr 1; omega
                      · rw [zip_cons_reverse, serializeMembersStep_append, hserR]
                        simp only [cppSerializeMembersStep, slope_ok g hg1]
                        rw [writeBits_eq _ _ _ hlt' hgle]
                        congr 1
                        apply Nat.mod_eq_of_lt
                        calc nR * 2 ^ g.size + doubleToU64 ((x - g.min) / slopeVal g)
                            < 2 ^ Wr * 2 ^ g.size :=
                              pack_lt nR _ (2 ^ Wr) (2 ^ g.size) hnR hlt'
                          _ = 2 ^ W' := by rw [← pow_add]; congr 1; omega
                          _ ≤ 2 ^ 64 := Nat.pow_le_pow_right (by norm_num) hle'
                      · simp only [cppDeserializeMembersStep, slope_ok g hg1,
                          readBits_fst, readBits_snd]
                        rw [mul_add_mod_right, Nat.mod_eq_of_lt hlt']
                        rw [mul_add_div_right _ _ _ (by positivity),
                          Nat.div_eq_of_lt hlt', Nat.add_zero]
                        rw [hdesR]
                        rw [hx]
                    | vbool bb => simp at hv0
                    | venum k => simp at hv0
                    | vstruct fs => simp at hv0
            | ref t =>
              simp only [goodMembersStep, Bool.and_eq_true] at hg
              obtain ⟨hghead, hgrest⟩ := hg
              by_cases ht : t = "bool"
              · subst ht
                simp only [widthMembers, memberWidth_bool] at hwm'
                cases hr : widthMembers struct_defs f rest with
                | error e => rw [hr] at hwm'; simp [Except.map] at hwm'
                | ok Wr =>
                  rw [hr] at hwm'
                  simp only [Except.map] at hwm'
                  have hWeq : 1 + Wr = W' := Except.ok.inj hwm'
                  have hWrle : Wr ≤ 64 := by omega
                  obtain ⟨part1r, part2r⟩ := ihm Wr hgrest hr hWrle
                  constructor
                  · intro b hb
                    have hb1 : b / 2 ^ 1 < 2 ^ Wr :=
                      div_lt_pow_of_lt b 1 Wr (by rw [hWeq]; exact hb)
                    obtain ⟨fieldsR, hdes, hser⟩ := part1r (b / 2 ^ 1) hb1
                    refine ⟨.vbool (((b % 2 ^ 1 : Nat) != 0)) :: fieldsR, ?_, ?_⟩
                    · simp only [desMembers_bool_cons,
                        readBits_fst, readBits_snd, hdes]
                      rw [Nat.shiftRight_eq_div_pow, Nat.shiftRight_eq_div_pow,
                        Nat.div_div_eq_div_mul, ← pow_add, hWeq]
                    · intro acc hacc
                      rw [zip_cons_reverse, serializeMembersStep_append,
                        hser acc hacc]
                      simp only [serMembers_bool_cons]
                      have hback : (if ((b % 2 ^ 1 : Nat) != 0) = true
                          then 1 else 0) = b % 2 ^ 1 := by
                        have h2 : b % 2 ^ 1 = 0 ∨ b % 2 ^ 1 = 1 := by
                          have := Nat.mod_lt b (show 0 < 2 ^ 1 by norm_num)
                          omega
                        rcases h2 with h2 | h2 <;> rw [h2] <;> rfl
                      rw [hback]
                      rw [writeBits_eq _ _ _ (Nat.mod_lt b (by norm_num))
                        (by norm_num)]
                      simp only [cppSerializeMembersStep]
                      rw [mod_mul_add_mod,
                        pack_arith acc (b / 2 ^ 1) (b % 2 ^ 1) 1 Wr W' (by omega),
                        Nat.div_add_mod' b (2 ^ 1)]
                  · intro fields hv
                    cases fields with
                    | nil => simp [validMembersStep] at hv
                    | cons v0 fieldsR =>
                      rw [validMembers_bool_cons, Bool.and_eq_true] at hv
                      obtain ⟨hv0, hvrest⟩ := hv
                      cases v0 with
                      | vbool bb =>
                        obtain ⟨nR, hnR, hserR, hdesR⟩ := part2r fieldsR hvrest
                        refine ⟨nR * 2 ^ 1 + (if bb then 1 else 0), ?_, ?_, ?_⟩
                        · have hblt : (if bb then 1 else 0) < 2 ^ 1 := by
                            cases bb <;> norm_num
                          calc nR * 2 ^ 1 + (if bb then 1 else 0)
                              < 2 ^ Wr * 2 ^ 1 :=
                                pack_lt nR _ (2 ^ Wr) (2 ^ 1) hnR hblt
                            _ = 2 ^ W' := by rw [← pow_add]; congr 1; omega
                        · rw [zip_cons_reverse, serializeMembersStep_append,
                            hserR]
                          simp only [serMembers_bool_cons]
                          have hblt : (if bb then 1 else 0) < 2 ^ 1 := by
                            cases bb <;> norm_num
                          rw [writeBits_eq _ _ _ hblt (by norm_num),
                            serMembers_nil]
                          congr 1
                          apply Nat.mod_eq_of_lt
                          calc nR * 2 ^ 1 + (if bb then 1 else 0)
                              < 2 ^ Wr * 2 ^ 1 :=
                                pack_lt nR _ (2 ^ Wr) (2 ^ 1) hnR hblt
                            _ = 2 ^ W' := by rw [← pow_add]; congr 1; omega
                            _ ≤ 2 ^ 64 :=
                              Nat.pow_le_pow_right (by norm_num) hle'
                        · have hblt : (if bb then 1 else 0) < 2 ^ 1 := by
                            cases bb <;> norm_num
                          simp only [desMembers_bool_cons,
                            readBits_fst, readBits_snd]
                          rw [mul_add_mod_right, Nat.mod_eq_of_lt hblt]
                          rw [mul_add_div_right _ _ _ (by norm_num),
                            Nat.div_eq_of_lt hblt, Nat.add_zero]
                          rw [hdesR]
                          have : ((if bb then 1 else 0 : Nat) != 0) = bb := by
                            cases bb <;> simp
                          rw [this]
                      | vnum x => simp at hv0
                      | venum k => simp at hv0
                      | vstruct fs => simp at hv0
              · rw [if_neg ht] at hghead
                cases hl : List.lookup t struct_defs with
                | none => rw [hl] at hghead; cases hghead
                | some d =>
                  rw [hl] at hghead
                  dsimp only at hghead
                  rw [Bool.and_eq_true] at hghead
                  obtain ⟨hsdok, hgd⟩ := hghead
                  cases hsd : CANStruct.size struct_defs f d with
                  | error e => rw [hsd] at hsdok; cases hsdok
                  | ok szd =>
                    obtain ⟨Wd, hWd, hWdle, p1d, p2d⟩ := ih d hgd
                    have hszd : szd = Wd := by
                      have := size_ok_cppWidth struct_defs hnb f d szd hsd
                      rw [this] at hWd
                      exact Except.ok.inj hWd
                    subst hszd
                    simp only [widthMembers, memberWidth, if_neg ht, hl,
                      hsd] at hwm'
                    cases hr : widthMembers struct_defs f rest with
                    | error e => rw [hr] at hwm'; simp [Except.map] at hwm'
                    | ok Wr =>
                      rw [hr] at hwm'
                      simp only [Except.map] at hwm'
                      have hWeq : szd + Wr = W' := Except.ok.inj hwm'
                      have hsdle : szd ≤ 64 := by omega
                      have hWrle : Wr ≤ 64 := by omega
                      obtain ⟨part1r, part2r⟩ := ihm Wr hgrest hr hWrle
                      constructor
                      · intro b hb
                        have hb1 : b / 2 ^ szd < 2 ^ Wr :=
                          div_lt_pow_of_lt b szd Wr (by rw [hWeq]; exact hb)
                        obtain ⟨fieldsR, hdes, hser⟩ := part1r (b / 2 ^ szd) hb1
                        obtain ⟨vd, hdecd, hserd⟩ :=
                          p1d (b % 2 ^ szd) (Nat.mod_lt b (by positivity))
                        refine ⟨vd :: fieldsR, ?_, ?_⟩
                        · simp only [cppDeserializeMembersStep, if_neg ht, hl,
                            hsd, readBits_fst, readBits_snd, hdecd, hdes]
                          rw [Nat.shiftRight_eq_div_pow,
                            Nat.shiftRight_eq_div_pow,
                            Nat.div_div_eq_div_mul, ← pow_add, hWeq]
                        · intro acc hacc
                          rw [zip_cons_reverse, serializeMembersStep_append,
                            hser acc hacc]
                          simp only [cppSerializeMembersStep, if_neg ht, hl,
                            hsd, hserd]
                          rw [writeBits_eq _ _ _ (Nat.mod_lt b (by positivity))
                            hsdle]
                          rw [mod_mul_add_mod,
                            pack_arith acc (b / 2 ^ szd) (b % 2 ^ szd)
                              szd Wr W' (by omega),
                            Nat.div_add_mod' b (2 ^ szd)]
                      · intro fields hv
                        cases fields with
                        | nil => simp [validMembersStep] at hv
                        | cons v0 fieldsR =>
                          simp only [validMembersStep, Bool.and_eq_true,
                            if_neg ht, hl] at hv
                          obtain ⟨hv0, hvrest⟩ := hv
                          obtain ⟨nd, hnd, hserd2, hdesd2⟩ := p2d v0 hv0
                          obtain ⟨nR, hnR, hserR, hdesR⟩ :=
                            part2r fieldsR hvrest
                          refine ⟨nR * 2 ^ szd + nd, ?_, ?_, ?_⟩
                          · calc nR * 2 ^ szd + nd < 2 ^ Wr * 2 ^ szd :=
                                pack_lt nR nd (2 ^ Wr) (2 ^ szd) hnR hnd
                              _ = 2 ^ W' := by rw [← pow_add]; congr 1; omega
                          · rw [zip_cons_reverse, serializeMembersStep_append,
                              hserR]
                            simp only [cppSerializeMembersStep, if_neg ht, hl,
                              hsd, hserd2]
                            rw [writeBits_eq _ _ _ hnd hsdle]
                            congr 1
                            apply Nat.mod_eq_of_lt
                            calc nR * 2 ^ szd + nd < 2 ^ Wr * 2 ^ szd :=
                                pack_lt nR nd (2 ^ Wr) (2 ^ szd) hnR hnd
                              _ = 2 ^ W' := by rw [← pow_add]; congr 1; omega
                              _ ≤ 2 ^ 64 :=
                                Nat.pow_le_pow_right (by norm_num) hle'
                          · simp only [cppDeserializeMembersStep, if_neg ht,
                              hl, hsd, readBits_fst, readBits_snd]
                            rw [mul_add_mod_right, Nat.mod_eq_of_lt hnd]
                            rw [mul_add_div_right _ _ _ (by positivity),
                              Nat.div_eq_of_lt hnd, Nat.add_zero]
                            rw [hdesd2, hdesR]
        obtain ⟨part1, part2⟩ := members ms W hgms hwm hle
        refine ⟨W, hW, hle, ?_, ?_⟩
        · intro b hb
          obtain ⟨fields, hdes, hser⟩ := part1 b hb
          refine ⟨.vstruct fields, ?_, ?_⟩
          · simp only [cppDeserialize, hdes]
          · simp only [cppSerialize, hser 0 (by positivity)]
            rw [Nat.zero_mul, Nat.zero_add, Nat.mod_eq_of_lt
              (lt_of_lt_of_le hb (Nat.pow_le_pow_right (by norm_num) hle))]
        · intro v hv
          cases v with
          | vstruct fields =>
            have hvm : validMembersStep (validValue struct_defs f) struct_defs
                ms fields = true := by simpa [validValue] using hv
            obtain ⟨n, hn, hser, hdes⟩ := part2 fields hvm
            refine ⟨n, hn, ?_, ?_⟩
            · simpa only [cppSerialize] using hser
            · simp only [cppDeserialize, hdes]
          | vbool bb => simp [validValue] at hv
          | vnum x => simp [validValue] at hv
          | venum k => simp [validValue] at hv

/-- Witness schema for C7: a three-bit inner struct. -/
def c7InnerStruct : CANStruct := ⟨"Pos", some (.struct [("x", .sig ⟨"", 0, 7, 3⟩)])⟩

/-- Witness schema for C7: an 8-bit struct with a boolean member, a
4-bit signal and a struct reference. -/
def c7Struct : CANStruct :=
  ⟨"State", some (.struct
    [("on", .ref "bool"),
     ("speed", .sig ⟨"", 0, 15, 4⟩),
     ("pos", .ref "Pos")])⟩

/-- Definition map for the C7 witness. -/
def c7Defs : List (String × CANStruct) := [("Pos", c7InnerStruct), ("State", c7Struct)]

/-- C7: for every struct definition of an acyclic, fully resolvable
schema inside the generated code's domain (`goodStruct`: no user type
named `bool`, total bit width at most 64, every signal with positive
width and a non-degenerate range, every reference resolvable with a
computable size), the emitted codec round-trips: every packed buffer
below `2 ^ W` decodes to a record that encodes back to the same buffer,
and every record whose floating-point fields are exact quantization
levels (`validValue`) encodes to a buffer below `2 ^ W` that decodes
back to the same record, where `W` is the struct's total bit width as
read and written by the generated code. -/
theorem C7_codec_round_trip (struct_defs : List (String × CANStruct))
    (fuel : Nat) (s : CANStruct)
    (hgood : goodStruct struct_defs fuel s = true) :
    ∃ W, cppWidth struct_defs fuel s = .ok W ∧ W ≤ 64 ∧
      (∀ b, b < 2 ^ W →
        ∃ v, cppDeserialize struct_defs fuel s b = .ok v ∧
          cppSerialize struct_defs fuel s v = .ok b) ∧
      (∀ v, validValue struct_defs fuel s v = true →
        ∃ n, n < 2 ^ W ∧ cppSerialize struct_defs fuel s v = .ok n ∧
          cppDeserialize struct_defs fuel s n = .ok v) :=
  C7core struct_defs fuel s hgood

/-- Closed witness for C7 at a concrete 8-bit schema. -/
theorem C7_codec_round_trip_witness :
    goodStruct c7Defs 3 c7Struct = true ∧
    (∃ W, cppWidth c7Defs 3 c7Struct = .ok W ∧ W ≤ 64 ∧
      (∀ b, b < 2 ^ W →
        ∃ v, cppDeserialize c7Defs 3 c7Struct b = .ok v ∧
          cppSerialize c7Defs 3 c7Struct v = .ok b) ∧
      (∀ v, validValue c7Defs 3 c7Struct v = true →
        ∃ n, n < 2 ^ W ∧ cppSerialize c7Defs 3 c7Struct v = .ok n ∧
          cppDeserialize c7Defs 3 c7Struct n = .ok v)) :=
  ⟨by decide, C7_codec_round_trip c7Defs 3 c7Struct (by decide)⟩

/-- A schema with a degenerate signal range (`min = max`): it resolves
fully and is acyclic, yet its slope `(max - min) / (2 ^ size - 1)` is
zero, so decoding maps every raw value to `min` and encoding cannot
recover the raw bits. -/
def c7DegStruct : CANStruct := ⟨"D", some (.struct [("a", .sig ⟨"", 5, 5, 1⟩)])⟩

/-- Definition map for the degenerate-range schema. -/
def c7DegDefs : List (String × CANStruct) := [("D", c7DegStruct)]

/-- C7 counterexample: in the acyclic, fully resolvable degenerate-range
schema the buffer `1` decodes to the record `[5]`, but encoding that
record yields `0`, not `1`: `encode (decode 1) = 0 ≠ 1`, so the buffer
round trip fails without the non-degenerate-range hypothesis. -/
theorem C7_counterexample_degenerate_range :
    cppWidth c7DegDefs 2 c7DegStruct = .ok 1 ∧
    cppDeserialize c7DegDefs 2 c7DegStruct 1 = .ok (.vstruct [.vnum 5]) ∧
    cppSerialize c7DegDefs 2 c7DegStruct (.vstruct [.vnum 5]) = .ok 0 := by
  have hs : slopeVal ⟨"", 5, 5, 1⟩ = 0 := by
    simp [slopeVal]
  refine ⟨rfl, ?_, ?_⟩
  · simp only [cppDeserialize, c7DegStruct, cppDeserializeMembersStep,
      slope_ok ⟨"", 5, 5, 1⟩ (by norm_num), readBits_fst, readBits_snd, hs]
    norm_num
  · simp only [cppSerialize, c7DegStruct, cppSerializeMembersStep,
      slope_ok ⟨"", 5, 5, 1⟩ (by norm_num), hs]
    norm_num [doubleToU64, writeBits]

/-- The raw bit slices the generated `_deserialize` loop reads: given the
member widths in declared order, the first member's raw value is the low
`w` bits of the buffer and the rest come from the buffer shifted right
by `w`. -/
def unpackRaws : List Nat → Nat → List Nat
  | [], _ => []
  | w :: rest, b => (b % 2 ^ w) :: unpackRaws rest (b / 2 ^ w)

/-- The packed integer assembled by the generated `serialize` loop when
the raw field values (declared order) are `rs` with widths `ws`: the
first declared field occupies the lowest bits. -/
def packRaws : List Nat → List Nat → Nat
  | w :: wsR, r :: rsR => packRaws wsR rsR * 2 ^ w + r
  | _, _ => 0

/-- The per-member conversion the generated `_deserialize` applies to
the raw bits it reads for one member: signal → `raw * slope + min`,
boolean → `raw != 0`, reference → recursive deserialize of the
referenced type. -/
def memberDecode (step : CANStruct → Nat → Except PyError CValue)
    (struct_defs : List (String × CANStruct)) :
    Member → Nat → Except PyError CValue
  | .sig g, raw =>
    match g.slope with
    | .error e => .error e
    | .ok sl => .ok (.vnum ((raw : Rat) * sl + g.min))
  | .ref t, raw =>
    if t = "bool" then .ok (.vbool (raw != 0))
    else
      match List.lookup t struct_defs with
      | none => .error (.keyError t)
      | some d => step d raw

/-- The per-member raw value the generated `serialize` ORs into the
accumulator for one member: signal → `uint64((x - min) / slope)`,
boolean → `1` or `0`, reference → recursive serialize of the referenced
type. -/
def memberEncode (step : CANStruct → CValue → Except PyError Nat)
    (struct_defs : List (String × CANStruct)) :
    Member → CValue → Except PyError Nat
  | .sig g, v =>
    match g.slope with
    | .error e => .error e
    | .ok sl =>
      match v with
      | .vnum x => .ok (doubleToU64 ((x - g.min) / sl))
      | _ => .error .typeError
  | .ref t, v =>
    if t = "bool" then
      match v with
      | .vbool b => .ok (if b then 1 else 0)
      | _ => .error .typeError
    else
      match List.lookup t struct_defs with
      | none => .error (.keyError t)
      | some d => step d v

/-- The list of bit widths of a member list in declared order. -/
def memberWidths (struct_defs : List (String × CANStruct)) (fuel : Nat)
    (ms : List (String × Member)) : Except PyError (List Nat) :=
  mapME (fun m => memberWidth struct_defs fuel m.2) ms

/-- C6: the generated decode routine reads fields in declared member
order, each read consuming the low `N` bits of the packed-integer
cursor, `N` being that member's bit width: decoding a member list with
widths `ws` from buffer `b` leaves the cursor at `b / 2 ^ ws.sum` and
returns exactly the per-member conversions of the raw slices
`unpackRaws ws b`.  The generated encode routine writes fields in
reverse declared order, each write left-shifting the accumulator by the
field's width and ORing in the field's raw value: from accumulator
`acc` it returns `(acc * 2 ^ ws.sum + packRaws ws rs) % 2 ^ 64`, so the
first declared field ends in the lowest bits, aligned with the decode
order. -/
theorem C6_decode_declared_order_encode_reversed
    (struct_defs : List (String × CANStruct)) (f : Nat) :
    ∀ (ms : List (String × Member)) (ws : List Nat),
      memberWidths struct_defs f ms = .ok ws →
      (∀ b vs b',
        cppDeserializeMembersStep (cppDeserialize struct_defs f)
            struct_defs f ms b = .ok (vs, b') →
        b' = b / 2 ^ ws.sum ∧
        List.Forall₂
          (fun mr v => memberDecode (cppDeserialize struct_defs f)
              struct_defs mr.1 mr.2 = .ok v)
          ((ms.map Prod.snd).zip (unpackRaws ws b)) vs) ∧
      (∀ vs rs acc,
        List.Forall₂
          (fun mv r => memberEncode (cppSerialize struct_defs f)
              struct_defs mv.1 mv.2 = .ok r)
          ((ms.map Prod.snd).zip vs) rs →
        List.Forall₂ (fun w r => r < 2 ^ w) ws rs →
        (∀ w ∈ ws, w ≤ 64) →
        vs.length = ms.length →
        acc < 2 ^ 64 →
        cppSerializeMembersStep (cppSerialize struct_defs f) struct_defs f
            ((ms.zip vs).reverse) acc =
          .ok ((acc * 2 ^ ws.sum + packRaws ws rs) % 2 ^ 64)) := by
  intro ms
  induction ms with
  | nil =>
    intro ws hws
    have hws0 : ws = [] := by
      rw [memberWidths, mapME] at hws
      exact (Except.ok.inj hws).symm
    subst hws0
    constructor
    · intro b vs b' hstep
      rw [cppDeserializeMembersStep] at hstep
      have h := Except.ok.inj hstep
      obtain ⟨h1, h2⟩ := Prod.mk.inj h
      refine ⟨h2.symm.trans (by simp), ?_⟩
      rw [← h1]
      exact List.Forall₂.nil
    · intro vs rs acc hf2 hlt h64 hlen hacc
      have hrs : rs = [] := by cases hlt; rfl
      subst hrs
      simp [cppSerializeMembersStep, packRaws]
      exact (Nat.mod_eq_of_lt hacc).symm
  | cons hd rest ih =>
    obtain ⟨nm, m⟩ := hd
    intro ws hws
    rw [memberWidths, mapME] at hws
    cases hw : memberWidth struct_defs f m with
    | error e => rw [hw] at hws; cases hws
    | ok w =>
      rw [hw] at hws
      dsimp only at hws
      cases hrest : mapME (fun p => memberWidth struct_defs f p.2) rest with
      | error e => rw [hrest] at hws; cases hws
      | ok wsR =>
        rw [hrest] at hws
        simp only [Except.map] at hws
        have hwseq : w :: wsR = ws := Except.ok.inj hws
        subst hwseq
        obtain ⟨ihdec, ihenc⟩ := ih wsR hrest
        constructor
        · intro b vs b' hstep
          cases m with
          | sig g =>
            have hwg : w = g.size := (Except.ok.inj hw).symm
            subst hwg
            rw [cppDeserializeMembersStep] at hstep
            cases hsl : g.slope with
            | error e => rw [hsl] at hstep; cases hstep
            | ok sl =>
              rw [hsl] at hstep
              dsimp only at hstep
              cases hrd : cppDeserializeMembersStep
                  (cppDeserialize struct_defs f) struct_defs f rest
                  (readBits b g.size).2 with
              | error e => rw [hrd] at hstep; cases hstep
              | ok p =>
                obtain ⟨vsR, b2⟩ := p
                rw [hrd] at hstep
                dsimp only at hstep
                have h := Except.ok.inj hstep
                obtain ⟨h1, h2⟩ := Prod.mk.inj h
                subst h1
                subst h2
                obtain ⟨hb2, hf2⟩ := ihdec (readBits b g.size).2 vsR b2 hrd
                constructor
                · rw [hb2, readBits_snd, Nat.div_div_eq_div_mul, ← pow_add,
                    List.sum_cons]
                · rw [List.map_cons, unpackRaws, List.zip_cons_cons]
                  refine List.Forall₂.cons ?_ ?_
                  · rw [memberDecode, hsl]
                    dsimp only
                    rw [readBits_fst]
                  · rw [readBits_snd] at hf2
                    exact hf2
          | ref t =>
            by_cases ht : t = "bool"
            · subst ht
              have hw1 : w = 1 := by
                rw [show memberWidth struct_defs f (.ref "bool") = .ok 1
                  from rfl] at hw
                exact (Except.ok.inj hw).symm
              subst hw1
              rw [desMembers_bool_cons] at hstep
              cases hrd : cppDeserializeMembersStep
                  (cppDeserialize struct_defs f) struct_defs f rest
                  (readBits b 1).2 with
              | error e => rw [hrd] at hstep; cases hstep
              | ok p =>
                obtain ⟨vsR, b2⟩ := p
                rw [hrd] at hstep
                dsimp only at hstep
                have h := Except.ok.inj hstep
                obtain ⟨h1, h2⟩ := Prod.mk.inj h
                subst h1
                subst h2
                obtain ⟨hb2, hf2⟩ := ihdec (readBits b 1).2 vsR b2 hrd
                constructor
                · rw [hb2, readBits_snd, Nat.div_div_eq_div_mul, ← pow_add,
                    List.sum_cons]
                · rw [List.map_cons, unpackRaws, List.zip_cons_cons]
                  refine List.Forall₂.cons ?_ ?_
                  · rw [readBits_fst]
                    rfl
                  · rw [readBits_snd] at hf2
                    exact hf2
            · rw [cppDeserializeMembersStep, if_neg ht] at hstep
              rw [memberWidth, if_neg ht] at hw
              cases hl : List.lookup t struct_defs with
              | none => rw [hl] at hw; cases hw
              | some d =>
                rw [hl] at hw
                dsimp only at hw
                rw [hl] at hstep
                dsimp only at hstep
                rw [hw] at hstep
                dsimp only at hstep
                cases hdv : cppDeserialize struct_defs f d
                    (readBits b w).1 with
                | error e => rw [hdv] at hstep; cases hstep
                | ok v0 =>
                  rw [hdv] at hstep
                  dsimp only at hstep
                  cases hrd : cppDeserializeMembersStep
                      (cppDeserialize struct_defs f) struct_defs f rest
                      (readBits b w).2 with
                  | error e => rw [hrd] at hstep; cases hstep
                  | ok p =>
                    obtain ⟨vsR, b2⟩ := p
                    rw [hrd] at hstep
                    dsimp only at hstep
                    have h := Except.ok.inj hstep
                    obtain ⟨h1, h2⟩ := Prod.mk.inj h
                    subst h1
                    subst h2
                    obtain ⟨hb2, hf2⟩ := ihdec (readBits b w).2 vsR b2 hrd
                    constructor
                    · rw [hb2, readBits_snd, Nat.div_div_eq_div_mul,
                        ← pow_add, List.sum_cons]
                    · rw [List.map_cons, unpackRaws, List.zip_cons_cons]
                      refine List.Forall₂.cons ?_ ?_
                      · rw [memberDecode, if_neg ht, hl]
                        dsimp only
                        rw [readBits_fst] at hdv
                        exact hdv
                      · rw [readBits_snd] at hf2
                        exact hf2
        · intro vs rs acc hf2 hlt h64 hlen hacc
          cases vs with
          | nil => simp at hlen
          | cons v vsR =>
            cases rs with
            | nil => cases hlt
            | cons r rsR =>
              obtain ⟨hr1, hrT⟩ := List.forall₂_cons.mp hlt
              rw [List.map_cons, List.zip_cons_cons] at hf2
              obtain ⟨he1, heT⟩ := List.forall₂_cons.mp hf2
              have hlenR : vsR.length = rest.length := by
                  simpa using hlen
              have h64R : ∀ u ∈ wsR, u ≤ 64 := fun u hu =>
                h64 u (List.mem_cons_of_mem _ hu)
              have hw64 : w ≤ 64 := h64 w (List.mem_cons_self _ _)
              rw [zip_cons_reverse, serializeMembersStep_append,
                ihenc vsR _ acc heT hrT h64R hlenR hacc]
              dsimp only
              cases m with
              | sig g =>
                have hwg : w = g.size := (Except.ok.inj hw).symm
                rw [memberEncode] at he1
                cases hsl : g.slope with
                | error e => rw [hsl] at he1; cases he1
                | ok sl =>
                  rw [hsl] at he1
                  dsimp only at he1
                  cases v with
                  | vnum x =>
                    have hr := Except.ok.inj he1
                    simp only [cppSerializeMembersStep, hsl]
                    rw [hr]
                    rw [writeBits_eq _ _ _ (by rw [hwg] at hr1; exact hr1)
                      (by rw [← hwg]; exact hw64)]
                    rw [mod_mul_add_mod]
                    congr 1
                    rw [List.sum_cons, packRaws, ← hwg]
                    ring
                  | vbool bb => simp at he1
                  | venum k => simp at he1
                  | vstruct fs => simp at he1
              | ref t =>
                by_cases ht : t = "bool"
                · subst ht
                  have hw1 : w = 1 := by
                    rw [show memberWidth struct_defs f (.ref "bool") = .ok 1
                      from rfl] at hw
                    exact (Except.ok.inj hw).symm
                  subst hw1
                  have he2 : (match v with
                      | CValue.vbool b => Except.ok (if b then (1:Nat) else 0)
                      | _ => (Except.error PyError.typeError :
                          Except PyError Nat)) = Except.ok r := he1
                  cases v with
                  | vbool bb =>
                    have hr := Except.ok.inj he2
                    rw [serMembers_bool_cons]
                    dsimp only
                    rw [hr, serMembers_nil]
                    rw [writeBits_eq _ _ _ hr1 hw64]
                    rw [mod_mul_add_mod]
                    congr 1
                    rw [List.sum_cons, packRaws]
                    ring
                  | vnum x => simp at he2
                  | venum k => simp at he2
                  | vstruct fs => simp at he2
                · have he2 : (if t = "bool" then
                        (match v with
                         | CValue.vbool b => Except.ok (if b then (1:Nat) else 0)
                         | _ => Except.error PyError.typeError)
                      else
                        match List.lookup t struct_defs with
                        | none => (Except.error (PyError.keyError t) :
                            Except PyError Nat)
                        | some d => cppSerialize struct_defs f d v) =
                      Except.ok r := he1
                  rw [if_neg ht] at he2
                  rw [memberWidth, if_neg ht] at hw
                  cases hl : List.lookup t struct_defs with
                  | none => rw [hl] at hw; cases hw
                  | some d =>
                    rw [hl] at hw
                    dsimp only at hw
                    rw [hl] at he2
                    dsimp only at he2
                    simp only [cppSerializeMembersStep, if_neg ht, hl,
                      hw, he2]
                    rw [writeBits_eq _ _ _ hr1 hw64]
                    rw [mod_mul_add_mod]
                    congr 1
                    rw [List.sum_cons, packRaws]
                    ring

/-- Witness schema for C6: a nested struct holding one two-bit signal. -/
def c6InnerStruct : CANStruct := ⟨"Q", some (.struct [("u", .sig ⟨"", 0, 3, 2⟩)])⟩

/-- Definition map for the C6 witness. -/
def c6Defs : List (String × CANStruct) := [("Q", c6InnerStruct)]

/-- Member list for the C6 witness: a boolean, a four-bit signal and a
struct reference, of widths 1, 4 and 2. -/
def c6Members : List (String × Member) :=
  [("on", .ref "bool"), ("speed", .sig ⟨"", 0, 15, 4⟩), ("q", .ref "Q")]

/-- Closed witness for C6 at a concrete member list of widths 1, 4, 2. -/
theorem C6_decode_declared_order_encode_reversed_witness :
    memberWidths c6Defs 2 c6Members = .ok [1, 4, 2] ∧
    ((∀ b vs b',
        cppDeserializeMembersStep (cppDeserialize c6Defs 2) c6Defs 2
            c6Members b = .ok (vs, b') →
        b' = b / 2 ^ ([1, 4, 2] : List Nat).sum ∧
        List.Forall₂
          (fun mr v => memberDecode (cppDeserialize c6Defs 2) c6Defs
              mr.1 mr.2 = .ok v)
          ((c6Members.map Prod.snd).zip (unpackRaws [1, 4, 2] b)) vs) ∧
      (∀ vs rs acc,
        List.Forall₂
          (fun mv r => memberEncode (cppSerialize c6Defs 2) c6Defs
              mv.1 mv.2 = .ok r)
          ((c6Members.map Prod.snd).zip vs) rs →
        List.Forall₂ (fun w r => r < 2 ^ w) [1, 4, 2] rs →
        (∀ w ∈ ([1, 4, 2] : List Nat), w ≤ 64) →
        vs.length = c6Members.length →
        acc < 2 ^ 64 →
        cppSerializeMembersStep (cppSerialize c6Defs 2) c6Defs 2
            ((c6Members.zip vs).reverse) acc =
          .ok ((acc * 2 ^ ([1, 4, 2] : List Nat).sum +
            packRaws [1, 4, 2] rs) % 2 ^ 64))) :=
  ⟨rfl,
    C6_decode_declared_order_encode_reversed c6Defs 2 c6Members [1, 4, 2] rfl⟩

/-- Every dependency of every element of `r` appears strictly earlier in
`r`: the postcondition `_topological_sort` is meant to establish. -/
def Precedes (deps : String → List String) (r : List String) : Prop :=
  ∀ l₁ a l₂, r = l₁ ++ a :: l₂ → ∀ d ∈ deps a, d ∈ l₁

theorem snoc_eq_append_cons {α : Type} (r : List α) (n a : α)
    (l₁ l₂ : List α) (h : r ++ [n] = l₁ ++ a :: l₂) :
    (l₂ = [] ∧ a = n ∧ l₁ = r) ∨ ∃ l₂', r = l₁ ++ a :: l₂' := by
  rcases List.append_eq_append_iff.mp h with ⟨w, hw1, hw2⟩ | ⟨w, hw1, hw2⟩
  · cases w with
    | nil =>
      left
      have h2 : a :: l₂ = [n] := hw2.symm.trans (by simp)
      refine ⟨?_, ?_, ?_⟩
      · exact (List.cons.inj h2).2
      · exact (List.cons.inj h2).1
      · rw [hw1]; simp
    | cons w0 wr =>
      have := congrArg List.length hw2
      simp at this
  · cases w with
    | nil =>
      left
      have h2 : a :: l₂ = [n] := by simpa using hw2
      exact ⟨(List.cons.inj h2).2, (List.cons.inj h2).1, by rw [hw1]; simp⟩
    | cons w0 wr =>
      right
      have h2 : a = w0 ∧ l₂ = wr ++ [n] := List.cons.inj (by simpa using hw2)
      exact ⟨wr, by rw [hw1, h2.1]⟩

theorem Precedes_nil (deps : String → List String) : Precedes deps [] := by
  intro l₁ a l₂ h
  have := congrArg List.length h
  simp at this
  omega

theorem Precedes_snoc (deps : String → List String) (r : List String)
    (n : String) (hp : Precedes deps r) (hd : ∀ d ∈ deps n, d ∈ r) :
    Precedes deps (r ++ [n]) := by
  intro l₁ a l₂ h d hdd
  rcases snoc_eq_append_cons r n a l₁ l₂ h with ⟨_, ha, hl⟩ | ⟨l₂', hr⟩
  · subst ha
    subst hl
    exact hd d hdd
  · exact hp l₁ a l₂' hr d hdd

/-- Full specification of the inner `explore` of `_topological_sort` on a
dependency graph admitting a rank function (the embedded form of
acyclicity): with fuel above the node's rank it succeeds, appends only
nodes of rank at most the explored node's, keeps the result duplicate
free and dependency closed in order, and puts the node in the result. -/
theorem explore_spec (E : String → Except PyError (List String))
    (deps : String → List String) (rank : String → Nat)
    (nodes : List String)
    (hE : ∀ n ∈ nodes, E n = .ok (deps n))
    (hclosed : ∀ n ∈ nodes, ∀ d ∈ deps n, d ∈ nodes)
    (hrank : ∀ n ∈ nodes, ∀ d ∈ deps n, rank d < rank n) :
    ∀ fuel node r, node ∈ nodes → rank node < fuel →
      (∀ x ∈ r, x ∈ nodes) → r.Nodup → Precedes deps r →
      ∃ r', explore E fuel node r = .ok r' ∧
        (∃ t, r' = r ++ t ∧ ∀ x ∈ t, rank x ≤ rank node) ∧
        (∀ x ∈ r', x ∈ nodes) ∧ r'.Nodup ∧ Precedes deps r' ∧
        node ∈ r' := by
  intro fuel
  induction fuel with
  | zero => intro node r _ hlt; omega
  | succ f ih =>
    intro node r hn hlt hsub hnd hprec
    by_cases hmem : node ∈ r
    · exact ⟨r, by rw [explore, if_pos hmem], ⟨[], by simp, by simp⟩,
        hsub, hnd, hprec, hmem⟩
    · have loop : ∀ ds, (∀ d ∈ ds, d ∈ deps node) →
          ∀ r₀, (∀ x ∈ r₀, x ∈ nodes) → r₀.Nodup → Precedes deps r₀ →
          ∃ r₁, exploreListStep (explore E f) ds r₀ = .ok r₁ ∧
            (∃ t, r₁ = r₀ ++ t ∧ ∀ x ∈ t, rank x < rank node) ∧
            (∀ x ∈ r₁, x ∈ nodes) ∧ r₁.Nodup ∧ Precedes deps r₁ ∧
            ∀ d ∈ ds, d ∈ r₁ := by
        intro ds
        induction ds with
        | nil =>
          intro _ r₀ h1 h2 h3
          exact ⟨r₀, rfl, ⟨[], by simp, by simp⟩, h1, h2, h3, by simp⟩
        | cons d dsR ihd =>
          intro hds r₀ h1 h2 h3
          have hdnode : d ∈ deps node := hds d (by simp)
          have hdn : d ∈ nodes := hclosed node hn d hdnode
          have hdr : rank d < rank node := hrank node hn d hdnode
          obtain ⟨r₁, he, ⟨t₁, ht₁, hrk₁⟩, hs₁, hn₁, hp₁, hm₁⟩ :=
            ih d r₀ hdn (by omega) h1 h2 h3
          obtain ⟨r₂, he₂, ⟨t₂, ht₂, hrk₂⟩, hs₂, hn₂, hp₂, hall₂⟩ :=
            ihd (fun x hx => hds x (List.mem_cons_of_mem _ hx)) r₁ hs₁ hn₁ hp₁
          refine ⟨r₂, ?_, ⟨t₁ ++ t₂, ?_, ?_⟩, hs₂, hn₂, hp₂, ?_⟩
          · rw [exploreListStep, he]
            exact he₂
          · rw [ht₂, ht₁, List.append_assoc]
          · intro x hx
            rcases List.mem_append.mp hx with hx | hx
            · have := hrk₁ x hx; omega
            · exact hrk₂ x hx
          · intro d' hd'
            rcases List.mem_cons.mp hd' with hh | hh
            · subst hh
              rw [ht₂]
              exact List.mem_append_left _ hm₁
            · exact hall₂ d' hh
      obtain ⟨r₁, hloop, ⟨t, ht, hrkt⟩, hs₁, hnd₁, hp₁, hall⟩ :=
        loop (deps node) (fun d hd => hd) r hsub hnd hprec
      have hnode_not : node ∉ r₁ := by
        rw [ht]
        intro hc
        rcases List.mem_append.mp hc with hc | hc
        · exact hmem hc
        · have := hrkt node hc; omega
      refine ⟨r₁ ++ [node], ?_, ⟨t ++ [node], ?_, ?_⟩, ?_, ?_, ?_, by simp⟩
      · rw [explore, if_neg hmem, hE node hn]
        dsimp only
        rw [hloop]
      · rw [ht, List.append_assoc]
      · intro x hx
        rcases List.mem_append.mp hx with hx | hx
        · have := hrkt x hx; omega
        · rw [List.mem_singleton] at hx; subst hx; exact Nat.le_refl _
      · intro x hx
        rcases List.mem_append.mp hx with hx | hx
        · exact hs₁ x hx
        · rw [List.mem_singleton] at hx; subst hx; exact hn
      · rw [List.nodup_append]
        refine ⟨hnd₁, List.nodup_singleton node, ?_⟩
        intro x hx hx1
        rw [List.mem_singleton] at hx1
        subst hx1
        exact hnode_not hx
      · exact Precedes_snoc deps r₁ node hp₁ (fun d hd => hall d hd)

/-- The top-level node loop of `_topological_sort`, instantiated with
enough fuel for every node. -/
theorem topological_sort_spec (E : String → Except PyError (List String))
    (deps : String → List String) (rank : String → Nat)
    (nodes : List String) (fuel : Nat)
    (hE : ∀ n ∈ nodes, E n = .ok (deps n))
    (hclosed : ∀ n ∈ nodes, ∀ d ∈ deps n, d ∈ nodes)
    (hrank : ∀ n ∈ nodes, ∀ d ∈ deps n, rank d < rank n)
    (hfuel : ∀ n ∈ nodes, rank n < fuel) :
    ∀ ns, (∀ n ∈ ns, n ∈ nodes) →
      ∀ r, (∀ x ∈ r, x ∈ nodes) → r.Nodup → Precedes deps r →
      ∃ r', exploreListStep (explore E fuel) ns r = .ok r' ∧
        (∃ t, r' = r ++ t) ∧ (∀ x ∈ r', x ∈ nodes) ∧ r'.Nodup ∧
        Precedes deps r' ∧ ∀ n ∈ ns, n ∈ r' := by
  intro ns
  induction ns with
  | nil =>
    intro _ r h1 h2 h3
    exact ⟨r, rfl, ⟨[], by simp⟩, h1, h2, h3, by simp⟩
  | cons n nsR ihn =>
    intro hns r h1 h2 h3
    have hn : n ∈ nodes := hns n (by simp)
    obtain ⟨r₁, he, ⟨t₁, ht₁, _⟩, hs₁, hn₁, hp₁, hm₁⟩ :=
      explore_spec E deps rank nodes hE hclosed hrank fuel n r hn
        (hfuel n hn) h1 h2 h3
    obtain ⟨r₂, he₂, ⟨t₂, ht₂⟩, hs₂, hn₂, hp₂, hall₂⟩ :=
      ihn (fun x hx => hns x (List.mem_cons_of_mem _ hx)) r₁ hs₁ hn₁ hp₁
    refine ⟨r₂, ?_, ⟨t₁ ++ t₂, ?_⟩, hs₂, hn₂, hp₂, ?_⟩
    · rw [exploreListStep, he]
      exact he₂
    · rw [ht₂, ht₁, List.append_assoc]
    · intro n' hn'
      rcases List.mem_cons.mp hn' with hh | hh
      · subst hh
        rw [ht₂]
        exact List.mem_append_left _ hm₁
      · exact hall₂ n' hh

/-- C2: on every schema whose references all resolve within the
definition map and whose dependency graph is acyclic (witnessed by a
rank function decreasing along every edge, `bool` excluded by
`CANStruct.dependencies` itself), `struct_order` succeeds for some fuel
and returns a list containing every type name exactly once (a
permutation of the keys) in which every dependency of a type appears
strictly before the type. -/
theorem C2_topological_sort_orders_dependencies
    (struct_defs : List (String × CANStruct))
    (deps : String → List String) (rank : String → Nat)
    (hkeys : (struct_defs.map Prod.fst).Nodup)
    (hE : ∀ n ∈ struct_defs.map Prod.fst,
      edgesOf struct_defs n = .ok (deps n))
    (hclosed : ∀ n ∈ struct_defs.map Prod.fst, ∀ d ∈ deps n,
      d ∈ struct_defs.map Prod.fst)
    (hrank : ∀ n ∈ struct_defs.map Prod.fst, ∀ d ∈ deps n,
      rank d < rank n) :
    ∃ fuel result, struct_order struct_defs fuel = .ok result ∧
      result.Perm (struct_defs.map Prod.fst) ∧
      ∀ l₁ a l₂, result = l₁ ++ a :: l₂ → ∀ d ∈ deps a, d ∈ l₁ := by
  set nodes := struct_defs.map Prod.fst with hnodes
  refine ⟨((nodes.map rank).sum + 1), ?_⟩
  have hfuel : ∀ n ∈ nodes, rank n < (nodes.map rank).sum + 1 := by
    intro n hn
    have : rank n ≤ (nodes.map rank).sum :=
      List.single_le_sum (fun x _ => Nat.zero_le x) _
        (List.mem_map_of_mem rank hn)
    omega
  obtain ⟨r', he, _, hsub, hnd, hprec, hall⟩ :=
    topological_sort_spec (edgesOf struct_defs) deps rank nodes
      ((nodes.map rank).sum + 1) hE hclosed hrank hfuel nodes
      (fun n hn => hn) [] (by simp) List.nodup_nil (Precedes_nil deps)
  refine ⟨r', he, ?_, hprec⟩
  exact List.Subperm.antisymm
    (List.Nodup.subperm hnd (fun x hx => hsub x hx))
    (List.Nodup.subperm hkeys (fun n hn => hall n hn))

deriving instance DecidableEq for Except

/-- Witness schema for C2: `A` references `B` (plus a `bool`, which
`dependencies` filters out) and `B` is a leaf. -/
def c2StructA : CANStruct :=
  ⟨"A", some (.struct [("x", .ref "B"), ("f", .ref "bool")])⟩

/-- Leaf struct of the C2 witness schema. -/
def c2StructB : CANStruct := ⟨"B", some (.struct [("u", .sig ⟨"", 0, 3, 2⟩)])⟩

/-- Definition map for the C2 witness. -/
def c2Defs : List (String × CANStruct) := [("A", c2StructA), ("B", c2StructB)]

/-- Dependency function of the C2 witness schema. -/
def c2deps : String → List String := fun n => if n = "A" then ["B"] else []

/-- Rank function witnessing acyclicity of the C2 witness schema. -/
def c2rank : String → Nat := fun n => if n = "A" then 1 else 0

/-- Closed witness for C2 on the two-type schema `A → B`. -/
theorem C2_topological_sort_orders_dependencies_witness :
    (c2Defs.map Prod.fst).Nodup ∧
    (∀ n ∈ c2Defs.map Prod.fst, edgesOf c2Defs n = .ok (c2deps n)) ∧
    (∀ n ∈ c2Defs.map Prod.fst, ∀ d ∈ c2deps n,
      d ∈ c2Defs.map Prod.fst) ∧
    (∀ n ∈ c2Defs.map Prod.fst, ∀ d ∈ c2deps n, c2rank d < c2rank n) ∧
    (∃ fuel result, struct_order c2Defs fuel = .ok result ∧
      result.Perm (c2Defs.map Prod.fst) ∧
      ∀ l₁ a l₂, result = l₁ ++ a :: l₂ → ∀ d ∈ c2deps a, d ∈ l₁) :=
  ⟨by decide, by decide, by decide, by decide,
    C2_topological_sort_orders_dependencies c2Defs c2deps c2rank
      (by decide) (by decide) (by decide) (by decide)⟩
